import Mathlib

/-!
# Shallow embedding of the naproche proof-checker core

This file embeds, in Lean 4, the core data model and operations of the
naproche proof checker (a Python program): the first-order-logic object
model and its canonical rendering (`src/naproche/logic/fol.py`), the
sentence/block translator (`src/naproche/logic/translator.py`), the
dependency-aware prover cache (`src/naproche/check/cache.py`), and the
dispatch engine (`src/naproche/check/engine.py`).

Modelling conventions:

* Python dataclass terms and formulas live in one dynamically-typed world;
  we model both with a single inductive type `Obj`.  The extra constructor
  `Obj.pynone` stands for Python's `None` where the source lets a `None`
  flow into a term position.
* The dollar-math expression parser (`parser/math_parser.py`, a Lark
  grammar) is a separate component; translator functions take it as an
  oracle parameter `pm : String → Option Obj` (`parse_math_safe` returns
  `None` on any parse failure).  Claims below never depend on its
  internals; concrete witnesses instantiate it explicitly.
* The external ATP adapters are likewise oracles (`prove` parameter), and
  the sha256 digest function is an oracle `String → String`.
* Python string methods are re-implemented over `List Char` with the ASCII
  semantics the program exercises (`.lower()`, `.upper()`, `.strip()`,
  `.startswith`, `in`, `.split`, `.replace`, `.index`).
* Recursions that Python runs as unbounded loops or recursion are given
  explicit fuel; wrappers supply a provably sufficient amount where a
  bound is computable.
-/

set_option maxHeartbeats 1000000

namespace Naproche

/-- The dynamic object world of `fol.py`: term constructors (`Variable`,
`Constant`, `Function`) and formula constructors (`Predicate`, `Equal`,
`Not`, `And`, `Or`, `Implies`, `Iff`, `Quantifier`), plus `pynone` for a
Python `None` that the source occasionally lets flow into an argument
position. -/
inductive Obj where
  | Variable (name : String)
  | Constant (name : String)
  | Function (name : String) (args : List Obj)
  | Predicate (name : String) (args : List Obj)
  | Equal (left right : Obj)
  | Not (f : Obj)
  | And (left right : Obj)
  | Or (left right : Obj)
  | Implies (left right : Obj)
  | Iff (left right : Obj)
  | Quantifier (type : String) (vars : List Obj) (body : Obj)
  | pynone
deriving Repr

/-! ## Python string primitives (ASCII semantics) -/

/-- Python `s.lower()` (the names the program manipulates are ASCII). -/
def py_lower (s : String) : String := String.mk (s.data.map Char.toLower)

/-- Python `s.upper()`. -/
def py_upper (s : String) : String := String.mk (s.data.map Char.toUpper)

/-- Python `s.startswith(p)`. -/
def py_startswith (s p : String) : Bool := p.data.isPrefixOf s.data

/-- Python `s.endswith(p)`. -/
def py_endswith (s p : String) : Bool := p.data.reverse.isPrefixOf s.data.reverse

def strContainsAux (sub : List Char) : List Char → Bool
  | [] => sub.isPrefixOf []
  | c :: cs => sub.isPrefixOf (c :: cs) || strContainsAux sub cs

/-- Python `sub in s` (substring containment). -/
def strContains (s sub : String) : Bool := strContainsAux sub.data s.data

/-- Python `s.strip()`. -/
def py_strip (s : String) : String :=
  String.mk (((s.data.dropWhile Char.isWhitespace).reverse.dropWhile Char.isWhitespace).reverse)

/-- Python `s.count(c)` for a single character. -/
def py_count (s : String) (c : Char) : Nat := s.data.countP (· = c)

def splitWSAux : List Char → List Char → List String
  | acc, [] => if acc.isEmpty then [] else [String.mk acc.reverse]
  | acc, c :: cs =>
      if c.isWhitespace then
        if acc.isEmpty then splitWSAux [] cs
        else String.mk acc.reverse :: splitWSAux [] cs
      else splitWSAux (c :: acc) cs

/-- Python `s.split()` with no argument: split on whitespace runs,
dropping empty fields. -/
def py_splitws (s : String) : List String := splitWSAux [] s.data

def splitOnAux (sep : List Char) : Nat → List Char → List Char → List (List Char)
  | 0, acc, l => [acc ++ l]
  | _ + 1, acc, [] => [acc]
  | fuel + 1, acc, c :: cs =>
      if sep.isPrefixOf (c :: cs) then
        acc :: splitOnAux sep fuel [] (cs.drop (sep.length - 1))
      else
        splitOnAux sep fuel (acc ++ [c]) cs

/-- Python `s.split(sep)` for a non-empty separator (Python raises on an
empty separator; all call sites pass non-empty literals).  The fuel is the
string length, which is always sufficient. -/
def py_split (s sep : String) : List String :=
  if sep.isEmpty then [s]
  else (splitOnAux sep.data (s.data.length + 1) [] s.data).map String.mk

def replaceAux (old new : List Char) : Nat → List Char → List Char
  | 0, l => l
  | _ + 1, [] => []
  | fuel + 1, c :: cs =>
      if old.isPrefixOf (c :: cs) then
        new ++ replaceAux old new fuel (cs.drop (old.length - 1))
      else
        c :: replaceAux old new fuel cs

/-- Python `s.replace(old, new)` for a non-empty `old` (all call sites
pass non-empty literals). -/
def py_replace (s old new : String) : String :=
  if old.isEmpty then s
  else String.mk (replaceAux old.data new.data (s.data.length + 1) s.data)

/-- First index of `x` in `l` (`l.index(x)` guarded by `x in l`). -/
def listIndex (x : String) : List String → Option Nat
  | [] => none
  | a :: as => if a = x then some 0 else (listIndex x as).map (· + 1)

/-- Python `"sep".join(l)`. -/
def py_join (sep : String) (l : List String) : String := String.intercalate sep l

/-! ## fol.py: rendering, substitution -/

/-- `fol.quote_name`: escape backslash and single quote, wrap in single
quotes. -/
def quote_name (name : String) : String :=
  let q : String := String.singleton (Char.ofNat 39)
  let escaped := py_replace (py_replace name "\\" "\\\\") q ("\\" ++ q)
  q ++ escaped ++ q

/-- The TPTP lower-word alphabet test `[a-z][a-zA-Z0-9_]*`
(`re.fullmatch` in `fol.needs_quote`). -/
def matchesIdent (s : String) : Bool :=
  match s.data with
  | [] => false
  | c :: cs => (c.isLower) && cs.all (fun d => d.isAlpha || d.isDigit || d = '_')

/-- `fol.needs_quote`.  Python's Unicode-aware `str.islower` and the ASCII
regex agree on the combined outcome (a non-ASCII lowercase first character
fails the regex check instead), so `Char.isLower` is faithful. -/
def needs_quote (name : String) : Bool :=
  if name.data.isEmpty then false
  else if !(name.data.headD ' ').isLower then true
  else if !matchesIdent name then true
  else false

/-- `Constant.__str__` from `fol.py`: strip a leading backslash and
lower-case (without quoting!); otherwise lower-case an upper-case initial
when that suffices, else quote when needed. -/
def constantStr (name : String) : String :=
  if py_startswith name "\\" then
    let real_name := String.mk name.data.tail
    -- both branches of the Python `if` return the lower-cased remainder
    py_lower real_name
  else if needs_quote name then
    if (name.data.headD ' ').isUpper then
      let lower := py_lower name
      if !needs_quote lower then lower else quote_name name
    else quote_name name
  else name

/-- The shared name rendering of `Function.__str__` / `Predicate.__str__`
from `fol.py` (`name_str = quote_name(name) if needs_quote(name) else
name`). -/
def fnNameStr (name : String) : String :=
  if needs_quote name then quote_name name else name

mutual

/-- The canonical string of a term/formula: the union of the `__str__`
methods of `fol.py` (`str(None) = "None"` for `pynone`). -/
def py_str : Obj → String
  | .Variable n => py_upper n
  | .Constant n => constantStr n
  | .Function n args =>
      if args.isEmpty then fnNameStr n
      else fnNameStr n ++ "(" ++ py_join "," (py_str_list args) ++ ")"
  | .Predicate n args =>
      if args.isEmpty then fnNameStr n
      else fnNameStr n ++ "(" ++ py_join "," (py_str_list args) ++ ")"
  | .Equal l r => py_str l ++ " = " ++ py_str r
  | .Not f => "~ (" ++ py_str f ++ ")"
  | .And l r => "(" ++ py_str l ++ " & " ++ py_str r ++ ")"
  | .Or l r => "(" ++ py_str l ++ " | " ++ py_str r ++ ")"
  | .Implies l r => "(" ++ py_str l ++ " => " ++ py_str r ++ ")"
  | .Iff l r => "(" ++ py_str l ++ " <=> " ++ py_str r ++ ")"
  | .Quantifier ty vs b =>
      "(" ++ (if ty = "forall" then "!" else "?") ++ " [" ++
        py_join "," (py_str_list vs) ++ "] : " ++ py_str b ++ ")"
  | .pynone => "None"

def py_str_list : List Obj → List String
  | [] => []
  | a :: as => py_str a :: py_str_list as

end

mutual

/-- `fol.substitute_term`: replace `Variable(varName)` by `rep`, recursing
only through `Function` arguments; every other object is returned
unchanged. -/
def substitute_term (varName : String) (rep : Obj) : Obj → Obj
  | .Variable n => if n = varName then rep else .Variable n
  | .Function n args => .Function n (substitute_term_list varName rep args)
  | o => o

def substitute_term_list (varName : String) (rep : Obj) : List Obj → List Obj
  | [] => []
  | a :: as => substitute_term varName rep a :: substitute_term_list varName rep as

end

/-- Python `v.name` attribute access on the constructors that carry one
(`Variable`, `Constant`, `Function`, `Predicate`); elsewhere the source
would raise `AttributeError`, which never happens on its inputs. -/
def nameAttr : Obj → Option String
  | .Variable n => some n
  | .Constant n => some n
  | .Function n _ => some n
  | .Predicate n _ => some n
  | _ => none

/-- `fol.substitute`: capture-avoiding substitution on formulas; refuses
to descend under a quantifier binding `varName`; any non-formula object
falls through unchanged. -/
def substitute (f : Obj) (varName : String) (rep : Obj) : Obj :=
  match f with
  | .Predicate n args => .Predicate n (substitute_term_list varName rep args)
  | .Equal l r => .Equal (substitute_term varName rep l) (substitute_term varName rep r)
  | .Not g => .Not (substitute g varName rep)
  | .And l r => .And (substitute l varName rep) (substitute r varName rep)
  | .Or l r => .Or (substitute l varName rep) (substitute r varName rep)
  | .Implies l r => .Implies (substitute l varName rep) (substitute r varName rep)
  | .Iff l r => .Iff (substitute l varName rep) (substitute r varName rep)
  | .Quantifier ty vs body =>
      if vs.any (fun v => nameAttr v = some varName) then .Quantifier ty vs body
      else .Quantifier ty vs (substitute body varName rep)
  | o => o

/-! ## translator.py: translator state, free variables, closure -/

/-- Python `dict` assignment `d[k] = v`: update in place if the key
exists (keeping its position), else append. -/
def dictSet {α : Type} (d : List (String × α)) (k : String) (v : α) : List (String × α) :=
  if d.any (·.1 = k) then d.map (fun p => if p.1 = k then (k, v) else p)
  else d ++ [(k, v)]

/-- Python `d.get(k, default)` on an insertion-ordered assoc list. -/
def dictGet {α : Type} (d : List (String × α)) (k : String) : Option α :=
  (d.find? (·.1 = k)).map (·.2)

/-- The mutable state of `Translator`: the macro table (normalized phrase
→ replacement term, insertion-ordered) and the synonym table (plural →
base form). -/
structure Translator where
  macros : List (String × Obj)
  synonyms : List (String × String)
deriving Repr

/-- `Translator.add_macro`: key is the lower-cased phrase. -/
def add_macro (tr : Translator) (phrase : String) (replacement : Obj) : Translator :=
  { tr with macros := dictSet tr.macros (py_lower phrase) replacement }

/-- `Translator.add_synonym(singular, plural)`: stores `plural → singular`. -/
def add_synonym (tr : Translator) (singular plural : String) : Translator :=
  { tr with synonyms := dictSet tr.synonyms plural singular }

/-- `Translator.normalize_noun`. -/
def normalize_noun (tr : Translator) (noun : String) : String :=
  (dictGet tr.synonyms noun).getD noun

mutual

/-- `Translator.get_vars_in_term`: the set of variable names occurring in
a term (as a traversal list; only emptiness and the sorted-deduplicated
view are consumed, matching Python's `set`). -/
def get_vars_in_term : Obj → List String
  | .Variable n => [n]
  | .Function _ args => get_vars_in_term_list args
  | _ => []

def get_vars_in_term_list : List Obj → List String
  | [] => []
  | a :: as => get_vars_in_term a ++ get_vars_in_term_list as

end

def get_vars_in_obj_list (l : List Obj) : List String := get_vars_in_term_list l

/-- `Translator.get_free_vars`: free variable names of a formula; a
quantifier removes exactly the `Variable` objects it binds. -/
def get_free_vars : Obj → List String
  | .Predicate _ args => get_vars_in_obj_list args
  | .Equal l r => get_vars_in_term l ++ get_vars_in_term r
  | .Not f => get_free_vars f
  | .And l r => get_free_vars l ++ get_free_vars r
  | .Or l r => get_free_vars l ++ get_free_vars r
  | .Implies l r => get_free_vars l ++ get_free_vars r
  | .Iff l r => get_free_vars l ++ get_free_vars r
  | .Quantifier _ vs body =>
      (get_free_vars body).filter
        (fun n => !(vs.any (fun v => match v with | .Variable m => m = n | _ => false)))
  | _ => []

/-- Insert into a sorted duplicate-free list of names. -/
def sortedInsert (n : String) : List String → List String
  | [] => [n]
  | m :: ms =>
      if n = m then m :: ms
      else if n < m then n :: m :: ms
      else m :: sortedInsert n ms

/-- The sorted duplicate-free view of a name list: Python's
`sorted(list(set))` keyed by name. -/
def sortDedup (l : List String) : List String := l.foldr sortedInsert []

/-- `Translator.closure`: universally close a formula over its free
variables, sorted by name; a formula with no free variables is returned
unchanged. -/
def closure (f : Obj) : Obj :=
  let free_vars := sortDedup (get_free_vars f)
  if free_vars.isEmpty then f
  else .Quantifier "forall" (free_vars.map Obj.Variable) f

/-- `Translator.expand_colon`: rewrite `colon(F, to(A,B))` into
`dom(F) = A ∧ ∀x. in(x,A) → in(F(x),B)`, recursing through connectives
and quantifiers. -/
def expand_colon (formula : Obj) : Obj :=
  match formula with
  | .Predicate nm args =>
      if nm = "colon" ∧ args.length = 2 then
        let f := args.getD 0 .pynone
        let t := args.getD 1 .pynone
        match t with
        | .Function "to" [a, b] =>
            let f_name := match f with
              | .Constant n => n
              | .Function n _ => n
              | other => py_str other
            let f_dom := Obj.Function "dom" [f]
            let cond1 := Obj.Equal f_dom a
            let x := Obj.Variable "x_colon"
            let f_app := Obj.Function f_name [x]
            let lhs := Obj.Predicate "in" [x, a]
            let rhs := Obj.Predicate "in" [f_app, b]
            let cond2 := Obj.Quantifier "forall" [x] (.Implies lhs rhs)
            .And cond1 cond2
        | _ => .Predicate nm args
      else .Predicate nm args
  | .Not f => .Not (expand_colon f)
  | .And l r => .And (expand_colon l) (expand_colon r)
  | .Or l r => .Or (expand_colon l) (expand_colon r)
  | .Implies l r => .Implies (expand_colon l) (expand_colon r)
  | .Iff l r => .Iff (expand_colon l) (expand_colon r)
  | .Quantifier ty vs body => .Quantifier ty vs (expand_colon body)
  | o => o

/-! ## translator.py: sentence translation -/

/-- The translator's `is_math` test: `"$" in s or r"\\" in s or r"\\[" in s`
(note `r"\\"` is two backslash characters, so a single-backslash LaTeX
command alone is not math). -/
def is_math (s : String) : Bool :=
  strContains s "$" || strContains s "\\\\" || strContains s "\\["

/-- The local `parse_term` of `translate_sentence`: demote a parsed
`Variable` to a `Constant` when not translating an axiom. -/
def parse_term_rule (pm : String → Option Obj) (asAxiom : Bool) (s : String) : Option Obj :=
  match pm s with
  | some (.Variable n) => if !asAxiom then some (.Constant n) else some (.Variable n)
  | r => r

/-- `parse_term` used directly as a value (Python lets the `None` of a
failed parse flow into an argument list). -/
def parse_term_val (pm : String → Option Obj) (asAxiom : Bool) (s : String) : Obj :=
  (parse_term_rule pm asAxiom s).getD .pynone

/-- `parse_math_safe` used directly as a value. -/
def pm_val (pm : String → Option Obj) (s : String) : Obj := (pm s).getD .pynone

/-- The macro-capture pattern `Let <phrase> stand for <math>` (lines
207–222 of translator.py): returns the extended translator when the
pattern fires, otherwise `none`. -/
def macroCapture (pm : String → Option Obj) (tr : Translator) (atoms_str : List String) :
    Option Translator :=
  if atoms_str.length > 4 ∧ atoms_str.headD "" = "Let" ∧
      atoms_str.contains "stand" ∧ atoms_str.contains "for" then
    let stand_idx := (listIndex "stand" atoms_str).getD 0
    let for_idx := (listIndex "for" atoms_str).getD 0
    if stand_idx > 1 ∧ for_idx = stand_idx + 1 ∧ for_idx + 1 < atoms_str.length then
      let phrase_atoms := (atoms_str.drop 1).take (stand_idx - 1)
      let phrase := py_join " " phrase_atoms
      let replacement_str := atoms_str.getD (for_idx + 1) ""
      if is_math replacement_str then
        match pm replacement_str with
        | some repl_term => some ( add_macro tr phrase repl_term)
        | none => none
      else none
    else none
  else none

/-- The replacement atom written for a macro hit: `$name$` for a stored
`Constant` (the conditional backslash prefix on the preceding source line
is dead, being unconditionally overwritten), `$str(term)$` otherwise. -/
def macroRepString (replacement : Obj) : String :=
  match replacement with
  | .Constant n => "$" ++ n ++ "$"
  | r => "$" ++ py_str r ++ "$"

/-- One position of the macro scan: the first stored phrase (in macro
table insertion order) whose atoms match case-insensitively at the head
of `l`.  A stored phrase is never empty (capture requires a phrase before
`stand`); on an empty phrase the Python loop would not advance. -/
def macroFirstMatch (macros : List (String × Obj)) (l : List String) :
    Option (Nat × String) :=
  macros.findSome? (fun pr =>
    let p_atoms := py_splitws pr.1
    let p_len := p_atoms.length
    if p_len ≠ 0 ∧ p_len ≤ l.length ∧
        (l.take p_len).map py_lower = p_atoms.map py_lower then
      some (p_len, macroRepString pr.2)
    else none)

/-- The left-to-right macro replacement scan (translator.py lines
224–248); the fuel (always at least the list length) makes the recursion
structural. -/
def expandScanAux (macros : List (String × Obj)) : Nat → List String → List String
  | 0, l => l
  | _ + 1, [] => []
  | fuel + 1, a :: rest =>
      match macroFirstMatch macros (a :: rest) with
      | some (plen, rep) => rep :: expandScanAux macros fuel (rest.drop (plen - 1))
      | none => a :: expandScanAux macros fuel rest

/-- Macro expansion of an atom sequence. -/
def expandMacroScan (macros : List (String × Obj)) (l : List String) : List String :=
  expandScanAux macros (l.length + 1) l

/-- `clean_atoms`: stop at an opening parenthesis, drop a trailing
period. -/
def cleanAtoms (atoms_str : List String) : List String :=
  let ca := atoms_str.takeWhile (· ≠ "(")
  if ca.getLast? = some "." then ca.dropLast else ca


/-- Python truthiness of a name list plus the `"_".join` + synonym
normalization used by several rules. -/
def joinNoun (parts : List String) : String := py_join "_" parts

/-- `isinstance(o, Formula)` over the dynamic world. -/
def isFormulaObj : Obj → Bool
  | .Predicate _ _ => true
  | .Equal _ _ => true
  | .Not _ => true
  | .And _ _ => true
  | .Or _ _ => true
  | .Implies _ _ => true
  | .Iff _ _ => true
  | .Quantifier _ _ _ => true
  | _ => false

/-- `isinstance(o, (Variable, Constant))` with the carried name. -/
def varConstName : Obj → Option String
  | .Variable n => some n
  | .Constant n => some n
  | _ => none

/-- Chain a non-empty list of formulas with `And`, left-associatively
(`res = preds[0]; for p in preds[1:]: res = And(res, p)`). -/
def chainAnd : List Obj → Option Obj
  | [] => none
  | p :: ps => some (ps.foldl Obj.And p)

/-- The repeated comma-separated-variables idiom (translator.py lines
423–431, 725–733, 745–752): strip `$`, `\\[`, `\\]`, split on commas,
parse each piece, fall back to the raw stripped text as a variable
name. -/
def commaVars (pm : String → Option Obj) (var_str : String) : List Obj :=
  let cleaned := py_replace (py_replace (py_replace var_str "$" "") "\\\\[" "") "\\\\]" ""
  (py_split cleaned ",").filterMap (fun rv =>
    match varConstName (pm_val pm (py_strip rv)) with
    | some n => some (Obj.Variable n)
    | none => if py_strip rv ≠ "" then some (Obj.Variable (py_strip rv)) else none)

/-- Rule "Every/every NP is …" (translator.py lines 305–348). -/
def everyRule (pm : String → Option Obj) (asAxiom : Bool) (clean : List String) :
    Option Obj :=
  if (clean.headD "" = "every" ∨ clean.headD "" = "Every") ∧ clean.contains "is" then
    let is_idx := (listIndex "is" clean).getD 0
    let subj_atoms := (clean.drop 1).take (is_idx - 1)
    let pred_atoms0 := clean.drop (is_idx + 1)
    let is_negated_is := pred_atoms0.headD "" = "not"
    let pred_atoms := if is_negated_is then pred_atoms0.drop 1 else pred_atoms0
    if !subj_atoms.isEmpty then
      let v := Obj.Variable "x_every"
      let subj_noun := joinNoun subj_atoms
      let subj_pred :=
        if subj_atoms.contains "of" then
          let of_idx := (listIndex "of" subj_atoms).getD 0
          if of_idx < subj_atoms.length - 1 ∧ is_math (subj_atoms.getD (of_idx + 1) "") then
            let noun_part := joinNoun (subj_atoms.take of_idx)
            let domain_part := parse_term_val pm asAxiom (subj_atoms.getD (of_idx + 1) "")
            Obj.Predicate noun_part [v, domain_part]
          else Obj.Predicate subj_noun [v]
        else Obj.Predicate subj_noun [v]
      let pred_body0 :=
        if pred_atoms.contains "with" then
          let with_idx := (listIndex "with" pred_atoms).getD 0
          if with_idx < pred_atoms.length - 1 ∧ is_math (pred_atoms.getD (with_idx + 1) "") then
            some (Obj.Predicate (joinNoun (pred_atoms.take with_idx))
              [v, parse_term_val pm asAxiom (pred_atoms.getD (with_idx + 1) "")])
          else none
        else none
      let pred_body1 :=
        match pred_body0 with
        | some p => p
        | none =>
            if pred_atoms.contains "object" then Obj.Predicate "object" [v]
            else Obj.Predicate (joinNoun pred_atoms) [v]
      let pred_body := if is_negated_is then Obj.Not pred_body1 else pred_body1
      some (Obj.Quantifier "forall" [v] (.Implies subj_pred pred_body))
    else none
  else none

/-- Rule "Assume $x$ is …" (translator.py lines 530–595). -/
def assumeIsRule (pm : String → Option Obj) (asAxiom : Bool) (clean : List String) :
    Option Obj :=
  if clean.headD "" = "Assume" ∧ clean.length > 2 then
    let tok := clean.getD 1 ""
    let is_found := clean.getD 2 "" = "is" ∨ clean.getD 2 "" = "are" ∨ clean.getD 2 "" = "be"
    let rest_start_idx := 3
    if is_math tok ∧ is_found then
      let varList : List Obj :=
        match pm tok with
        | some (.Variable n) => if asAxiom then [.Variable n] else [.Variable n]
        | some (.Constant n) => if asAxiom then [.Variable n] else [.Constant n]
        | _ =>
            let inner := py_replace (py_replace (py_replace tok "$" "") "\\\\[" "") "\\\\]" ""
            (py_split inner ",").filterMap (fun part =>
              match pm (py_strip part) with
              | some (.Variable n) => some (if asAxiom then Obj.Variable n else Obj.Variable n)
              | some (.Constant n) => some (if asAxiom then Obj.Variable n else Obj.Constant n)
              | _ => none)
      if !varList.isEmpty then
        let rest0 := clean.drop rest_start_idx
        let rest := if rest0.headD "" = "a" ∨ rest0.headD "" = "an" then rest0.drop 1 else rest0
        if rest.length = 1 then
          chainAnd (varList.map (fun v => Obj.Predicate (rest.headD "") [v]))
        else if rest.length > 1 ∧ rest.contains "element" ∧ rest.contains "of" then
          let of_idx := (listIndex "of" rest).getD 0
          if of_idx + 1 < rest.length ∧ is_math (rest.getD (of_idx + 1) "") then
            let domain := parse_term_val pm asAxiom (rest.getD (of_idx + 1) "")
            chainAnd (varList.map (fun v => Obj.Predicate "in" [v, domain]))
          else none
        else if rest.length > 1 ∧ rest.contains "of" then
          let of_idx := (listIndex "of" rest).getD 0
          if of_idx + 1 < rest.length ∧ is_math (rest.getD (of_idx + 1) "") then
            let noun_phrase := joinNoun (rest.take of_idx)
            let domain := parse_term_val pm asAxiom (rest.getD (of_idx + 1) "")
            chainAnd (varList.map (fun v => Obj.Predicate noun_phrase [v, domain]))
          else none
        else none
      else none
    else none
  else none

/-- Variable collection of the "Let … be …" rule (translator.py lines
600–635): scan the atoms before `be`, skipping commas; a math token
parsing to a `Constant` is promoted to a `Variable` under `as_axiom`, a
`Variable` is demoted through `parse_term` otherwise; composite math
tokens are comma-split. -/
def letBeVars (pm : String → Option Obj) (asAxiom : Bool) (toks : List String) : List Obj :=
  toks.foldl (fun acc tok =>
    if py_strip tok = "," then acc
    else if is_math tok then
      let term0 := pm_val pm tok
      let term1 := match term0 with
        | .Constant n => if asAxiom then Obj.Variable n else Obj.Constant n
        | t => t
      let term := match term1 with
        | .Variable n => if !asAxiom then parse_term_val pm asAxiom tok else Obj.Variable n
        | t => t
      match varConstName term with
      | some _ => acc ++ [term]
      | none =>
          let inner := py_replace (py_replace (py_replace tok "$" "") "\\\\[" "") "\\\\]" ""
          acc ++ (py_split inner ",").filterMap (fun part =>
            match pm (py_strip part) with
            | some (.Variable n) => some (if asAxiom then Obj.Variable n else Obj.Variable n)
            | some (.Constant n) => some (if asAxiom then Obj.Variable n else Obj.Constant n)
            | _ => none)
    else acc) []

/-- Rule "Let … be …" plus the trailing "Let $math$" equality case
(translator.py lines 597–687). -/
def letBeRule (pm : String → Option Obj) (tr : Translator) (asAxiom : Bool)
    (clean : List String) : Option Obj :=
  if clean.headD "" = "Let" then
    let attempt :=
      if clean.contains "be" then
        let be_idx := (listIndex "be" clean).getD 0
        let varList := letBeVars pm asAxiom ((clean.drop 1).take (be_idx - 1))
        if !varList.isEmpty then
          let rest0 := clean.drop (be_idx + 1)
          let rest := if rest0.headD "" = "a" ∨ rest0.headD "" = "an" then rest0.drop 1 else rest0
          let trySubsetLike (noun : String) : Option Obj :=
            if rest.length > 1 ∧ rest.contains noun ∧ rest.contains "of" then
              let of_idx := (listIndex "of" rest).getD 0
              if of_idx + 1 < rest.length ∧ is_math (rest.getD (of_idx + 1) "") then
                let domain := parse_term_val pm asAxiom (rest.getD (of_idx + 1) "")
                chainAnd (varList.map (fun v => Obj.Predicate noun [v, domain]))
              else none
            else none
          match trySubsetLike "subset" with
          | some r => some r
          | none =>
            match trySubsetLike "subclass" with
            | some r => some r
            | none =>
              if rest.length = 1 then
                let noun := normalize_noun tr (rest.headD "")
                chainAnd (varList.map (fun v => Obj.Predicate noun [v]))
              else if rest.length > 1 ∧ rest.contains "element" ∧ rest.contains "of" then
                let of_idx := (listIndex "of" rest).getD 0
                if of_idx + 1 < rest.length ∧ is_math (rest.getD (of_idx + 1) "") then
                  let domain := parse_term_val pm asAxiom (rest.getD (of_idx + 1) "")
                  chainAnd (varList.map (fun v => Obj.Predicate "in" [v, domain]))
                else none
              else none
        else none
      else none
    match attempt with
    | some r => some r
    | none =>
        if clean.length > 2 ∧ is_math (clean.getD 1 "") then
          match pm (clean.getD 1 "") with
          | some (.Equal l r) => some (.Equal l r)
          | _ => none
        else none
  else none

/-- Rule "Then <math formula>" (translator.py lines 689–693). -/
def thenMathRule (pm : String → Option Obj) (clean : List String) : Option Obj :=
  if clean.contains "Then" then
    (clean.drop 1).findSome? (fun a =>
      if is_math a then
        match pm a with
        | some f => if isFormulaObj f then some f else none
        | none => none
      else none)
  else none



/-- Indices of the atoms equal to `x`. -/
def positionsOf (x : String) (l : List String) : List Nat :=
  (l.enum.filter (fun p => p.2 = x)).map (·.1)

/-- Variable–domain pair collection of the leading "For all/every" rule
(translator.py lines 696–757), one pass per index. -/
def forAllCollectAt (pm : String → Option Obj) (clean : List String) (i : Nat) :
    List (Obj × Obj) :=
  let n := clean.length
  let elemPair : Option (Obj × Obj) :=
    if (clean.getD i "" = "element" ∨ clean.getD i "" = "elements") ∧ i + 3 < n ∧
        clean.getD (i + 2) "" = "of" ∧ is_math (clean.getD (i + 1) "") ∧
        is_math (clean.getD (i + 3) "") then
      match pm (clean.getD (i + 1) ""), pm (clean.getD (i + 3) "") with
      | some v, some d => some (v, d)
      | _, _ => none
    else none
  match elemPair with
  | some p => [p]
  | none =>
    if is_math (clean.getD i "") then
      let math_content := clean.getD i ""
      if strContains math_content "\\in" then
        let parts := py_split math_content "\\in"
        if parts.length = 2 then
          let var_str0 := parts.getD 0 ""
          let dom_str0 := parts.getD 1 ""
          let dom_str1 := if !py_startswith (py_strip dom_str0) "$" then "$" ++ dom_str0 else dom_str0
          let dom_str := if !py_endswith (py_strip dom_str1) "$" then dom_str1 ++ "$" else dom_str1
          let domain := pm dom_str
          let var_str := py_replace (py_replace var_str0 "$" "") "\\\\[" ""
          if var_str ≠ "" ∧ domain.isSome then
            (commaVars pm var_str).map (fun v => (v, domain.getD .pynone))
          else []
        else []
      else if i + 2 < n ∧ clean.getD (i + 1) "" = "in" ∧ is_math (clean.getD (i + 2) "") then
        let d := pm (clean.getD (i + 2) "")
        let vars_list := commaVars pm (clean.getD i "")
        if !vars_list.isEmpty ∧ d.isSome then
          vars_list.map (fun v => (v, d.getD .pynone))
        else []
      else []
    else []

/-- Rule "For all/every …" at the head of a sentence (translator.py
lines 695–786). -/
def forAllLeadingRule (pm : String → Option Obj) (clean : List String) : Option Obj :=
  if (clean.headD "" = "For" ∨ clean.headD "" = "for") ∧
      (clean.contains "all" ∨ clean.contains "every") then
    let vars_domains := (List.range clean.length).foldl
      (fun acc i => acc ++ forAllCollectAt pm clean i) []
    let body0 : Option Obj :=
      if clean.contains "have" then
        let h_idx := (listIndex "have" clean).getD 0
        if h_idx + 1 < clean.length ∧ is_math (clean.getD (h_idx + 1) "") then
          pm (clean.getD (h_idx + 1) "")
        else none
      else none
    let body1 : Option Obj :=
      match body0 with
      | some b => some b
      | none => if is_math (clean.getLastD "") then pm (clean.getLastD "") else none
    let body : Option Obj :=
      match body1 with
      | some b => some b
      | none =>
          if clean.contains "is" then
            let last_atom := clean.getLastD ""
            if last_atom = "object" ∨ last_atom = "set" ∨ is_math last_atom then
              let is_idx := (listIndex "is" clean).getD 0
              if is_idx > 0 ∧ is_math (clean.getD (is_idx - 1) "") then
                some (.Predicate last_atom [pm_val pm (clean.getD (is_idx - 1) "")])
              else none
            else none
          else none
    if !vars_domains.isEmpty ∧ body.isSome then
      some (vars_domains.foldr (fun (pr : Obj × Obj) result =>
        let v_obj0 := match pr.1 with | .Constant m => Obj.Variable m | t => t
        let v_obj := match v_obj0 with | .Function m _ => Obj.Variable m | t => t
        Obj.Quantifier "forall" [v_obj]
          (.Implies (.Predicate "in" [v_obj, pr.2]) result)) (body.getD .pynone))
    else none
  else none

/-- Rule "$A$ is a class of P elements of $B$" (translator.py lines
789–815; `IndexError`s are swallowed by the surrounding `except`). -/
def classElementsRule (pm : String → Option Obj) (asAxiom : Bool)
    (eff : List String) : Option Obj :=
  let n_eff := eff.length
  if n_eff ≥ 5 ∧ eff.contains "class" ∧ eff.contains "elements" then
    let class_idx := (listIndex "class" eff).getD 0
    let elem_idx := (listIndex "elements" eff).getD 0
    if eff.getD 1 "" = "is" ∧ is_math (eff.headD "") then
      let term_A := parse_term_val pm asAxiom (eff.headD "")
      let of1_idx := class_idx + 1
      if of1_idx < n_eff ∧ eff.getD of1_idx "" = "of" then
        let P_atoms := (eff.drop (of1_idx + 1)).take (elem_idx - (of1_idx + 1))
        if !P_atoms.isEmpty then
          let pred_name0 := P_atoms.headD ""
          let pred_name :=
            if is_math pred_name0 then
              match pm pred_name0 with
              | some (.Constant m) => m
              | some (.Variable m) => m
              | _ => pred_name0
            else pred_name0
          let of2_idx := elem_idx + 1
          if of2_idx < n_eff ∧ eff.getD of2_idx "" = "of" ∧ of2_idx + 1 < n_eff then
            let B_atom := eff.getD (of2_idx + 1) ""
            if is_math B_atom then
              let domain_B := parse_term_val pm asAxiom B_atom
              let x := Obj.Variable "x_gen"
              some (.Quantifier "forall" [x]
                (.Iff (.Predicate "in" [x, term_A])
                  (.And (.Predicate "in" [x, domain_B]) (.Predicate pred_name [x]))))
            else none
          else none
        else none
      else none
    else none
  else none

/-- Rule "Let $math$" with a bare equation or predicate (translator.py
lines 901–904). -/
def letEqualRule (pm : String → Option Obj) (clean : List String) : Option Obj :=
  if clean.headD "" = "Let" ∧ clean.length = 2 ∧ is_math (clean.getD 1 "") then
    match pm (clean.getD 1 "") with
    | some (.Equal l r) => some (.Equal l r)
    | some (.Predicate m args) => some (.Predicate m args)
    | _ => none
  else none

/-- Rule "Take …" (translator.py lines 906–953). -/
def takeRule (pm : String → Option Obj) (clean : List String) : Option Obj :=
  if clean.headD "" = "Take" then
    let n := clean.length
    let cond : Option Obj :=
      if clean.contains "that" then
        let that_idx := (listIndex "that" clean).getD 0
        if that_idx + 1 < n ∧ is_math (clean.getD (that_idx + 1) "") then
          pm (clean.getD (that_idx + 1) "")
        else none
      else none
    let limit := if clean.contains "such" then (listIndex "such" clean).getD 0 else n
    let typed := (List.range limit).foldl (fun acc i =>
      if i ≥ 1 ∧ is_math (clean.getD i "") then
        let prev_word := clean.getD (i - 1) ""
        let inner := py_replace (py_replace (py_replace (clean.getD i "") "$" "") "\\[" "") "\\]" ""
        acc ++ (py_split inner ",").foldl (fun fs v_str =>
          match varConstName (pm_val pm (py_strip v_str)) with
          | some _ =>
              let v_term := pm_val pm (py_strip v_str)
              if prev_word = "integer" ∨ prev_word = "integers" then
                fs ++ [Obj.Predicate "integer" [v_term]]
              else if prev_word = "map" ∨ prev_word = "maps" then
                fs ++ [Obj.Predicate "map" [v_term]]
              else if prev_word = "set" ∨ prev_word = "sets" then
                fs ++ [Obj.Predicate "set" [v_term]]
              else if prev_word = "element" then
                if i + 1 < limit ∧ clean.getD (i + 1) "" = "of" ∧ i + 2 < limit ∧
                    is_math (clean.getD (i + 2) "") then
                  fs ++ [Obj.Predicate "in" [v_term, pm_val pm (clean.getD (i + 2) "")]]
                else fs
              else fs
          | none => fs) []
      else acc) []
    let formulas := typed ++ (match cond with | some c => [c] | none => [])
    let formulas2 :=
      if formulas.isEmpty then
        match (clean.drop 1).findSome? (fun a =>
          if is_math a then
            match pm a with
            | some (.Equal l r) => some (Obj.Equal l r)
            | _ => none
          else none) with
        | some t => [t]
        | none => []
      else formulas
    chainAnd formulas2
  else none

/-- Rule "T has [a/an/no] N …" (translator.py lines 1093–1136). -/
def hasRule (pm : String → Option Obj) (tr : Translator) (asAxiom : Bool)
    (eff : List String) : Option Obj :=
  if eff.length ≥ 3 ∧ eff.getD 1 "" = "has" then
    let term := parse_term_val pm asAxiom (eff.headD "")
    let quantifier := eff.getD 2 ""
    let is_negated_has := quantifier = "no"
    let noun_start := if quantifier = "no" ∨ quantifier = "a" ∨ quantifier = "an" then 3 else 2
    let noun_atoms := eff.drop noun_start
    let parts := noun_atoms.foldl (fun (acc : List String × List Obj) w =>
      if is_math w then (acc.1, acc.2 ++ [parse_term_val pm asAxiom w])
      else if w ≠ "of" ∧ w ≠ "in" ∧ w ≠ "to" ∧ w ≠ "with" ∧ w ≠ "from" then
        (acc.1 ++ [w], acc.2)
      else acc) ([], [])
    if !parts.1.isEmpty then
      let noun := normalize_noun tr (joinNoun parts.1)
      let x := Obj.Variable "x_has"
      let prop := Obj.Quantifier "exists" [x] (.Predicate noun ([x, term] ++ parts.2))
      some (if is_negated_has then Obj.Not prop else prop)
    else none
  else none

/-- Segment split on a bare `"and"` atom, dropping empty segments
(translator.py lines 446–454). -/
def splitOnAndExact (l : List String) : List (List String) :=
  let st := l.foldl (fun (acc : List (List String) × List String) a =>
    if a = "and" then
      (if acc.2.isEmpty then acc.1 else acc.1 ++ [acc.2], [])
    else (acc.1, acc.2 ++ [a])) ([], [])
  if st.2.isEmpty then st.1 else st.1 ++ [st.2]

/-- Segment split on `w.strip() == "and"` (translator.py lines 858–867). -/
def splitOnAndStrip (l : List String) : List (List String) :=
  let st := l.foldl (fun (acc : List (List String) × List String) w =>
    if py_strip w = "and" then
      (if acc.2.isEmpty then acc.1 else acc.1 ++ [acc.2], [])
    else (acc.1, acc.2 ++ [w])) ([], [])
  if st.2.isEmpty then st.1 else st.1 ++ [st.2]

/-- One "for some" segment (translator.py lines 456–487): `some <noun
phrase> <math var> [of <math domain>]`. -/
def forSomeSeg (pm : String → Option Obj) (tr : Translator) (seg : List String) :
    Option (String × Obj) :=
  if seg.headD "" = "some" then
    match (seg.enum.filter (fun p => is_math p.2)).map (·.1) with
    | [] => none
    | v_idx :: _ =>
        match pm (seg.getD v_idx "") with
        | some (.Variable vn) => forSomeSegDomain pm tr seg v_idx vn
        | some (.Constant vn) => forSomeSegDomain pm tr seg v_idx vn
        | _ => none
  else none
where
  /-- The domain predicate of the segment: `in(v, D)` for `element of D`,
  else the noun predicate. -/
  forSomeSegDomain (pm : String → Option Obj) (tr : Translator) (seg : List String)
      (v_idx : Nat) (vn : String) : Option (String × Obj) :=
    let noun := normalize_noun tr (joinNoun ((seg.drop 1).take (v_idx - 1)))
    if noun = "element" ∧ v_idx + 2 < seg.length ∧ seg.getD (v_idx + 1) "" = "of" then
      if is_math (seg.getD (v_idx + 2) "") then
        some (vn, Obj.Predicate "in" [Obj.Variable vn, pm_val pm (seg.getD (v_idx + 2) "")])
      else none
    else some (vn, Obj.Predicate noun [Obj.Variable vn])

/-- The "… for some …" trailing rule core, after the head has been
translated (translator.py lines 439–494). -/
def forSomeCore (pm : String → Option Obj) (tr : Translator) (quant_part : List String)
    (body : Obj) : Option Obj :=
  let segments := splitOnAndExact (quant_part.drop 1)
  let parsed := segments.foldl (fun acc seg =>
    match acc with
    | none => none
    | some l => (forSomeSeg pm tr seg).map (fun p => l ++ [p])) (some [])
  match parsed with
  | some ps =>
      if !ps.isEmpty then
        some (ps.foldr (fun (pr : String × Obj) result =>
          Obj.Quantifier "exists" [Obj.Variable pr.1] (.And pr.2 result)) body)
      else none
  | none => none

/-- The "… for all …" trailing rule core (translator.py lines 396–437). -/
def forAllTrailingCore (pm : String → Option Obj) (quant_part : List String)
    (body : Obj) : Option Obj :=
  let maths := quant_part.filter is_math
  let vd : String × Option Obj :=
    if maths.length = 1 ∧ strContains (maths.headD "") "\\\\in" then
      let parts := py_split (maths.headD "") "\\\\in"
      if parts.length = 2 then
        let var_str0 := parts.getD 0 ""
        let dom_str0 := parts.getD 1 ""
        let dom_str1 := if !py_startswith (py_strip dom_str0) "$" then "$" ++ dom_str0 else dom_str0
        let dom_str := if !py_endswith (py_strip dom_str1) "$" then dom_str1 ++ "$" else dom_str1
        (py_replace (py_replace var_str0 "$" "") "\\\\[" "", pm dom_str)
      else ("", none)
    else if maths.length ≥ 2 then
      (maths.headD "", pm (maths.getD 1 ""))
    else ("", none)
  if vd.1 ≠ "" ∧ vd.2.isSome then
    let vars_list := commaVars pm vd.1
    if !vars_list.isEmpty then
      some (vars_list.foldr (fun v res =>
        Obj.Quantifier "forall" [v]
          (.Implies (.Predicate "in" [v, vd.2.getD .pynone]) res)) body)
    else none
  else none

/-- The noun/argument extraction of the "A/An <NP> is …" rule
(translator.py lines 357–378): the predicate name parts, the extra
arguments, the defining variable found in the body, and the body atoms. -/
def aAnParts (pm : String → Option Obj) (tr : Translator) (clean : List String)
    (is_idx : Nat) : String × List Obj × Option String × List String :=
  let noun_words := (clean.drop 1).take (is_idx - 1)
  let acc := noun_words.foldl (fun (acc : List String × List Obj) w =>
    if is_math w then
      match varConstName (pm_val pm w) with
      | some m => (acc.1, acc.2 ++ [Obj.Variable m])
      | none => acc
    else if w ≠ "of" ∧ w ≠ "in" ∧ w ≠ "to" ∧ w ≠ "with" ∧ w ≠ "from" then
      (acc.1 ++ [w], acc.2)
    else acc) ([], [])
  let noun := normalize_noun tr (joinNoun acc.1)
  let body_atoms := clean.drop (is_idx + 1)
  let var := body_atoms.findSome? (fun a =>
    if is_math a then varConstName (pm_val pm a) else none)
  (noun, acc.2, var, body_atoms)

/-- The generic tail of the "T is [not] …" rule after the optional
`such that` condition has been translated (translator.py lines 831–899). -/
def isRuleAfterCond (pm : String → Option Obj) (tr : Translator) (asAxiom : Bool)
    (term : Obj) (rest0 : List String) (cond : Option Obj) : Option Obj :=
  let rest1 := if rest0.headD "" = "a" ∨ rest0.headD "" = "an" then rest0.drop 1 else rest0
  let is_negated := rest1.headD "" = "not"
  let rest2a := if is_negated then rest1.drop 1 else rest1
  let rest2 := if is_negated ∧ (rest2a.headD "" = "a" ∨ rest2a.headD "" = "an") then
      rest2a.drop 1 else rest2a
  let rest :=
    if !rest2.isEmpty ∧ is_math (rest2.getLastD "") then
      match varConstName (pm_val pm (rest2.getLastD "")), varConstName term with
      | some lastName, some termName =>
          if lastName = termName then rest2.dropLast else rest2
      | _, _ => rest2
    else rest2
  if rest.length > 1 ∧ rest.contains "element" ∧ rest.contains "of" then
    let of_idx := (listIndex "of" rest).getD 0
    if of_idx + 1 < rest.length ∧ is_math (rest.getD (of_idx + 1) "") then
      let domain := parse_term_val pm asAxiom (rest.getD (of_idx + 1) "")
      let pred0 := Obj.Predicate "in" [term, domain]
      let pred := match cond with | some c => Obj.And pred0 c | none => pred0
      some (if is_negated then Obj.Not pred else pred)
    else isRuleSegments pm tr asAxiom term rest cond is_negated
  else isRuleSegments pm tr asAxiom term rest cond is_negated
where
  isRuleSegments (pm : String → Option Obj) (tr : Translator) (asAxiom : Bool)
      (term : Obj) (rest : List String) (cond : Option Obj) (is_negated : Bool) :
      Option Obj :=
    let segments := splitOnAndStrip rest
    let preds := segments.foldl (fun acc seg =>
      let eff_seg := if seg.headD "" = "a" ∨ seg.headD "" = "an" then seg.drop 1 else seg
      let parts := eff_seg.foldl (fun (acc2 : List String × List Obj) w =>
        if is_math w then (acc2.1, acc2.2 ++ [parse_term_val pm asAxiom w])
        else if w ≠ "of" ∧ w ≠ "in" ∧ w ≠ "to" ∧ w ≠ "with" ∧ w ≠ "from" then
          (acc2.1 ++ [w], acc2.2)
        else acc2) ([], [])
      if !parts.1.isEmpty then
        acc ++ [Obj.Predicate (normalize_noun tr (joinNoun parts.1)) ([term] ++ parts.2)]
      else acc) []
    match chainAnd preds with
    | some res0 =>
        let res := match cond with | some c => Obj.And res0 c | none => res0
        some (if is_negated then Obj.Not res else res)
    | none => none

/-- The `$`-balancing merge of re-tokenized set-comprehension text
(translator.py lines 1030–1062). -/
def mergeMathAtoms (atoms : List String) : List String :=
  let st := atoms.foldl
    (fun (acc : List String × String × Bool) atom =>
      let (merged, buffer, in_math) := acc
      if strContains atom "$" ∧ py_count atom '$' % 2 = 1 then
        if in_math then (merged ++ [buffer ++ " " ++ atom], "", false)
        else (merged, atom, true)
      else
        if in_math then (merged, buffer ++ " " ++ atom, in_math)
        else (merged ++ [atom], buffer, in_math)) ([], "", false)
  if st.2.1 ≠ "" then st.1 ++ [st.2.1] else st.1

/-- The preprocessed condition text of a set-comprehension definition
(translator.py lines 1009–1028): strip, outer quotes, `\text{…}`. -/
def setCompCondText (text_condition : Obj) : String :=
  let q := String.singleton (Char.ofNat 39)
  let cond_str0 := match text_condition with
    | .Constant m => py_strip m
    | t => py_strip (py_str t)
  let cond_str1 :=
    if (py_startswith cond_str0 q ∧ py_endswith cond_str0 q) ∨
        (py_startswith cond_str0 "\"" ∧ py_endswith cond_str0 "\"") then
      String.mk (cond_str0.data.drop 1).dropLast
    else cond_str0
  let cond_str2 := py_strip cond_str1
  let cond_str3 :=
    if py_startswith cond_str2 "\\text\x7b" ∧ py_endswith cond_str2 "\x7d" then
      String.mk (cond_str2.data.drop 6).dropLast
    else cond_str2
  py_strip cond_str3

/-- Head detection of the Define rule (translator.py line 955). -/
def defineHead (clean : List String) : Bool :=
  clean.headD "" = "Define" ∨ clean.headD "" = "define" ∨
    (clean.length > 1 ∧ clean.headD "" = "Indeed" ∧
      (clean.getD 1 "" = "Define" ∨ clean.getD 1 "" = "define"))

/-- The `for <v> in <D>` qualifier of the Define rule (translator.py
lines 965–989); `none` when the rule falls through to the
set-comprehension case. -/
def defineForIn (pm : String → Option Obj) (clean : List String) (defn : Obj) :
    Option Obj :=
  let n := clean.length
  if clean.contains "for" ∧ clean.contains "in" then
    let f_idx := (listIndex "for" clean).getD 0
    let i_idx := (listIndex "in" clean).getD 0
    if f_idx < i_idx ∧ f_idx + 1 < n ∧ i_idx + 1 < n then
      match pm (clean.getD (f_idx + 1) ""), pm (clean.getD (i_idx + 1) "") with
      | some var, some domain =>
          let v := match var with | .Constant m => Obj.Variable m | t => t
          let domain_axiom : Option Obj :=
            match defn with
            | .Equal (.Function fname _) _ =>
                let z := Obj.Variable "z_dom"
                let dom_term := Obj.Function "dom" [Obj.Constant fname]
                some (.Quantifier "forall" [z]
                  (.Iff (.Predicate "in" [z, dom_term]) (.Predicate "in" [z, domain])))
            | _ => none
          let value_axiom := Obj.Quantifier "forall" [v]
            (.Implies (.Predicate "in" [v, domain]) defn)
          match domain_axiom with
          | some da => some (.And da value_axiom)
          | none => some value_axiom
      | _, _ => none
    else none
  else none



/-- The sentence-level prefixes stripped before predicate templates
(translator.py line 503). -/
def sentencePrefixes : List String :=
  ["Assume", "Then", "Thus", "Therefore", "Hence", "Indeed", "Case"]

mutual

/-- `Translator.translate_sentence` (translator.py lines 190–524),
threading the mutable translator state and taking the math parser as the
oracle `pm`.  The fuel bounds the recursion on sub-sentences, which
Python leaves unbounded; every concrete run below uses ample fuel. -/
def translate_sentence (pm : String → Option Obj) :
    Nat → Translator → String → List String → Bool → Option Obj × Translator
  | 0, tr, _, _, _ => (none, tr)
  | fuel + 1, tr, _text, atoms, asAxiom =>
      -- rule 1: macro capture `Let <phrase> stand for <math>`
      match macroCapture pm tr atoms with
      | some tr2 => (none, tr2)
      | none =>
          -- rule 2: macro expansion (skipped when the table is empty,
          -- on which the scan is the identity)
          let atoms2 := if tr.macros.isEmpty then atoms else expandMacroScan tr.macros atoms
          -- rule 3: terminal cleanup, then the pattern cascade
          tsClean pm fuel tr (cleanAtoms atoms2) asAxiom

/-- The pattern cascade of `translate_sentence` on the cleaned atom
sequence, starting with the biconditional split on `iff` (translator.py
lines 258–267). -/
def tsClean (pm : String → Option Obj) :
    Nat → Translator → List String → Bool → Option Obj × Translator
  | 0, tr, _, _ => (none, tr)
  | fuel + 1, tr, clean, asAxiom =>
      if clean.contains "iff" then
        let iff_idx := (listIndex "iff" clean).getD 0
        let left_atoms := clean.take iff_idx
        let right_atoms := clean.drop (iff_idx + 1)
        let lres := translate_sentence pm fuel tr (py_join " " left_atoms) left_atoms asAxiom
        let rres := translate_sentence pm fuel lres.2 (py_join " " right_atoms) right_atoms asAxiom
        match lres.1, rres.1 with
        | some lf, some rf => (some (expand_colon (.Iff lf rf)), rres.2)
        | _, _ => tsAnd pm fuel rres.2 clean asAxiom
      else tsAnd pm fuel tr clean asAxiom

/-- The top-level `and` split (translator.py lines 269–288): try each
`and` position from the right; the right side is only attempted when the
left translated. -/
def tsAnd (pm : String → Option Obj) :
    Nat → Translator → List String → Bool → Option Obj × Translator
  | 0, tr, _, _ => (none, tr)
  | fuel + 1, tr, clean, asAxiom =>
      if clean.contains "and" then
        let res := (positionsOf "and" clean).reverse.foldl
          (fun (acc : Option Obj × Translator) idx =>
            match acc.1 with
            | some _ => acc
            | none =>
                let left_atoms := clean.take idx
                let right_atoms := clean.drop (idx + 1)
                let lres := translate_sentence pm fuel acc.2 (py_join " " left_atoms)
                  left_atoms asAxiom
                match lres.1 with
                | some lf =>
                    let rres := translate_sentence pm fuel lres.2 (py_join " " right_atoms)
                      right_atoms asAxiom
                    match rres.1 with
                    | some rf => (some (expand_colon (.And lf rf)), rres.2)
                    | none => (none, rres.2)
                | none => (none, lres.2)) (none, tr)
        match res.1 with
        | some r => (some r, res.2)
        | none => tsIfThen pm fuel res.2 clean asAxiom
      else tsIfThen pm fuel tr clean asAxiom

/-- The `If … then …` split (translator.py lines 290–303). -/
def tsIfThen (pm : String → Option Obj) :
    Nat → Translator → List String → Bool → Option Obj × Translator
  | 0, tr, _, _ => (none, tr)
  | fuel + 1, tr, clean, asAxiom =>
      if clean.contains "If" ∧ clean.contains "then" then
        let then_idx := (listIndex "then" clean).getD 0
        let if_idx := (listIndex "If" clean).getD 0
        if if_idx = 0 then
          let left_atoms := (clean.drop 1).take (then_idx - 1)
          let right_atoms := clean.drop (then_idx + 1)
          let lres := translate_sentence pm fuel tr (py_join " " left_atoms) left_atoms asAxiom
          let rres := translate_sentence pm fuel lres.2 (py_join " " right_atoms)
            right_atoms asAxiom
          match lres.1, rres.1 with
          | some lf, some rf => (some (expand_colon (.Implies lf rf)), rres.2)
          | _, _ => tsQuantRules pm fuel rres.2 clean asAxiom
        else tsQuantRules pm fuel tr clean asAxiom
      else tsQuantRules pm fuel tr clean asAxiom

/-- The quantifier-flavoured sentence rules: `Every … is …`, the
indefinite-article definition, and the trailing `for all` / `for some`
quantifiers (translator.py lines 305–494). -/
def tsQuantRules (pm : String → Option Obj) :
    Nat → Translator → List String → Bool → Option Obj × Translator
  | 0, tr, _, _ => (none, tr)
  | fuel + 1, tr, clean, asAxiom =>
      match everyRule pm asAxiom clean with
      | some r => (some r, tr)
      | none =>
          -- `A/An <NP> is …` with an explicit variable in the body
          if (clean.headD "" = "A" ∨ clean.headD "" = "An" ∨ clean.headD "" = "a" ∨
              clean.headD "" = "an") ∧ clean.contains "is" then
            let is_idx := (listIndex "is" clean).getD 0
            if is_idx > 1 then
              let parts := aAnParts pm tr clean is_idx
              match parts.2.2.1 with
              | some vname =>
                  let synthetic_atoms := ["$" ++ vname ++ "$", "is"] ++ parts.2.2.2
                  let rres := translate_sentence pm fuel tr "" synthetic_atoms asAxiom
                  match rres.1 with
                  | some rhs =>
                      (some (.Quantifier "forall" [Obj.Variable vname]
                        (.Iff (.Predicate parts.1 ([Obj.Variable vname] ++ parts.2.1)) rhs)),
                        rres.2)
                  | none => tsForTrailing pm fuel rres.2 clean asAxiom
              | none => tsForTrailing pm fuel tr clean asAxiom
            else tsForTrailing pm fuel tr clean asAxiom
          else tsForTrailing pm fuel tr clean asAxiom

/-- The trailing `… for all/every/each …` and `… for some …`
quantifiers (translator.py lines 390–494). -/
def tsForTrailing (pm : String → Option Obj) :
    Nat → Translator → List String → Bool → Option Obj × Translator
  | 0, tr, _, _ => (none, tr)
  | fuel + 1, tr, clean, asAxiom =>
      if clean.contains "for" then
        match (positionsOf "for" clean).getLast? with
        | some f_idx =>
            if f_idx > 0 ∧ f_idx + 1 < clean.length then
              let next_word := clean.getD (f_idx + 1) ""
              if next_word = "all" ∨ next_word = "every" ∨ next_word = "each" then
                let quant_part := clean.drop f_idx
                let body_part := clean.take f_idx
                let bres := translate_sentence pm fuel tr (py_join " " body_part)
                  body_part asAxiom
                match bres.1 with
                | some bf =>
                    match forAllTrailingCore pm quant_part bf with
                    | some res => (some (expand_colon res), bres.2)
                    | none => tsTail pm fuel bres.2 clean asAxiom
                | none => tsTail pm fuel bres.2 clean asAxiom
              else if next_word = "some" then
                let quant_part := clean.drop f_idx
                let body_part := clean.take f_idx
                let bres := translate_sentence pm fuel tr (py_join " " body_part)
                  body_part asAxiom
                match bres.1 with
                | some bf =>
                    match forSomeCore pm bres.2 quant_part bf with
                    | some res => (some (expand_colon res), bres.2)
                    | none => tsTail pm fuel bres.2 clean asAxiom
                | none => tsTail pm fuel bres.2 clean asAxiom
              else tsTail pm fuel tr clean asAxiom
            else tsTail pm fuel tr clean asAxiom
        | none => tsTail pm fuel tr clean asAxiom
      else tsTail pm fuel tr clean asAxiom

/-- The tail of `translate_sentence` (translator.py lines 496–524):
single math atoms, prefix stripping, `Let us show that`, and the
dispatch into `_translate_logic` with the final `expand_colon`. -/
def tsTail (pm : String → Option Obj) :
    Nat → Translator → List String → Bool → Option Obj × Translator
  | 0, tr, _, _ => (none, tr)
  | fuel + 1, tr, clean, asAxiom =>
      let n := clean.length
      if n = 0 then (none, tr)
      else if n = 1 ∧ is_math (clean.headD "") then
        ((pm (clean.headD "")).map expand_colon, tr)
      else
        let eff := if sentencePrefixes.contains (clean.headD "") then clean.drop 1 else clean
        if eff.length = 1 ∧ is_math (eff.headD "") then
          ((pm (eff.headD "")).map expand_colon, tr)
        else if n ≥ 4 ∧ clean.headD "" = "Let" ∧ clean.getD 1 "" = "us" ∧
            clean.getD 2 "" = "show" ∧ clean.getD 3 "" = "that" then
          let rest := clean.drop 4
          translate_sentence pm fuel tr (py_join " " rest) rest asAxiom
        else
          let lres := translate_logic pm fuel tr clean eff asAxiom
          match lres.1 with
          | some r => (some (expand_colon r), lres.2)
          | none => (none, lres.2)

/-- `Translator._translate_logic` (translator.py lines 526–1138). -/
def translate_logic (pm : String → Option Obj) :
    Nat → Translator → List String → List String → Bool → Option Obj × Translator
  | 0, tr, _, _, _ => (none, tr)
  | fuel + 1, tr, clean, eff, asAxiom =>
      if clean.contains "Assume" ∧ clean.contains "contrary" then
        (some (.Predicate "contrary" []), tr)
      else match assumeIsRule pm asAxiom clean with
      | some r => (some r, tr)
      | none => match letBeRule pm tr asAxiom clean with
      | some r => (some r, tr)
      | none => match thenMathRule pm clean with
      | some r => (some r, tr)
      | none => match forAllLeadingRule pm clean with
      | some r => (some r, tr)
      | none => match classElementsRule pm asAxiom eff with
      | some r => (some r, tr)
      | none =>
          -- `T is [not] a/an N …` with an optional `such that` condition
          if eff.length ≥ 3 ∧ eff.getD 1 "" = "is" ∧ is_math (eff.headD "") then
            let term := parse_term_val pm asAxiom (eff.headD "")
            let rest0 := eff.drop 2
            let condSplit : Option Obj × List String × Translator :=
              if rest0.contains "such" ∧ rest0.contains "that" then
                let such_idx := (listIndex "such" rest0).getD 0
                if such_idx + 1 < rest0.length ∧ rest0.getD (such_idx + 1) "" = "that" then
                  let cond_atoms := rest0.drop (such_idx + 2)
                  let cres := translate_sentence pm fuel tr (py_join " " cond_atoms)
                    cond_atoms asAxiom
                  (cres.1, rest0.take such_idx, cres.2)
                else (none, rest0, tr)
              else (none, rest0, tr)
            match isRuleAfterCond pm condSplit.2.2 asAxiom term condSplit.2.1 condSplit.1 with
            | some r => (some r, condSplit.2.2)
            | none => tlAfterIs pm fuel condSplit.2.2 clean eff asAxiom
          else tlAfterIs pm fuel tr clean eff asAxiom

/-- `_translate_logic` after the `is` rule: `Let $eq$`, `Take`, `Define`,
`Contradiction`, `End`/`qed`, `has` (translator.py lines 901–1138). -/
def tlAfterIs (pm : String → Option Obj) :
    Nat → Translator → List String → List String → Bool → Option Obj × Translator
  | 0, tr, _, _, _ => (none, tr)
  | fuel + 1, tr, clean, eff, asAxiom =>
      match letEqualRule pm clean with
      | some r => (some r, tr)
      | none => match takeRule pm clean with
      | some r => (some r, tr)
      | none =>
          if defineHead clean then
            -- `Define …` always returns: the first math equation (with an
            -- optional `for … in …` guard or set-comprehension expansion),
            -- else the sentinel `definition()`
            match clean.findSome? (fun a =>
                if is_math a then
                  match pm a with
                  | some (.Equal l r) => some (Obj.Equal l r)
                  | _ => none
                else none) with
            | none => (some (.Predicate "definition" []), tr)
            | some defn =>
                match defineForIn pm clean defn with
                | some r => (some r, tr)
                | none =>
                    match defn with
                    | .Equal lhsP (.Function "set_comp" [expression, text_condition]) =>
                        let varDom : Option Obj × Option Obj :=
                          match expression with
                          | .Predicate "in" (a :: rest) =>
                              (some a, some (.Predicate "in" (a :: rest)))
                          | .Variable m => (some (.Variable m), none)
                          | .Constant m => (some (.Constant m), none)
                          | _ => (none, none)
                        match varDom.1 with
                        | some varv =>
                            let cond_str := setCompCondText text_condition
                            let merged := mergeMathAtoms (py_splitws cond_str)
                            let cres := translate_sentence pm fuel tr cond_str merged true
                            match cres.1 with
                            | some cond_form =>
                                let body := match varDom.2 with
                                  | some dc => Obj.And dc cond_form
                                  | none => cond_form
                                let v_obj := match varv with
                                  | .Variable m => Obj.Variable m
                                  | .Constant m => Obj.Variable m
                                  | t => t
                                (some (.Quantifier "forall" [v_obj]
                                  (.Iff (.Predicate "in" [varv, lhsP]) body)), cres.2)
                            | none =>
                                (some (.Equal lhsP
                                  (.Function "set_comp" [expression, text_condition])), cres.2)
                        | none =>
                            (some (.Equal lhsP
                              (.Function "set_comp" [expression, text_condition])), tr)
                    | d => (some d, tr)
          else if clean.contains "Contradiction" ∨ clean.contains "contradiction" then
            (some (.Predicate "false" []), tr)
          else if clean.contains "End" ∨ clean.contains "qed" then
            (none, tr)
          else
            match hasRule pm tr asAxiom eff with
            | some r => (some r, tr)
            | none => (none, tr)

end



/-! ## models.py: the statement AST -/

/-- The statement AST of `logic/models.py`: sentences, directives, and
the block kinds (each block carries its label/name and children; a
theorem also carries an optional author). -/
inductive Stmt where
  | sentence (text : String) (atoms : List String)
  | directive (name : String) (args : List String)
  | defnBlock (name : String) (content : List Stmt)
  | axiomBlock (name : String) (content : List Stmt)
  | lemmaBlock (name : String) (content : List Stmt)
  | theoremBlock (name : String) (content : List Stmt) (author : Option String)
  | proofBlock (name : String) (content : List Stmt)
deriving Repr

/-! ## translator.py: statement and block translation -/

/-- Left-associative `And` chain of a non-empty list
(`res = l[0]; for x in l[1:]: res = And(res, x)`). -/
def andChain (a : Obj) (rest : List Obj) : Obj := rest.foldl Obj.And a

/-- The sentence classification and translation pass of
`Translator.translate_block` (translator.py lines 65–82): assumption
formulas (text begins `Let`/`Assume`), conclusion formulas, and the
threaded translator state. -/
def translate_block_split (pm : String → Option Obj) (fuel : Nat) (tr : Translator)
    (content : List Stmt) : List Obj × List Obj × Translator :=
  content.foldl (fun (acc : List Obj × List Obj × Translator) s =>
    match s with
    | .sentence text atoms =>
        let is_assumption := py_startswith (py_strip text) "Let" ∨
          py_startswith (py_strip text) "Assume"
        let r := translate_sentence pm fuel acc.2.2 text atoms true
        match r.1 with
        | some f =>
            if is_assumption then (acc.1 ++ [f], acc.2.1, r.2)
            else (acc.1, acc.2.1 ++ [f], r.2)
        | none => (acc.1, acc.2.1, r.2)
    | _ => acc) ([], [], tr)

/-- `Translator.translate_block` (translator.py lines 65–101): with no
conclusions, one closure per assumption; otherwise a single closed
formula `closure((A1 ∧ … ∧ Am) → (C1 ∧ … ∧ Cn))` (or just the closed
conclusion conjunction without assumptions). -/
def translate_block (pm : String → Option Obj) (fuel : Nat) (tr : Translator)
    (content : List Stmt) : List Obj × Translator :=
  match translate_block_split pm fuel tr content with
  | (asms, [], tr2) => (asms.map closure, tr2)
  | (asms, c :: cs, tr2) =>
      let conc_form := andChain c cs
      match asms with
      | [] => ([closure conc_form], tr2)
      | a :: as => ([closure (.Implies (andChain a as) conc_form)], tr2)

/-- `Translator.translate_statement` (translator.py lines 46–63). -/
def translate_statement (pm : String → Option Obj) (fuel : Nat) (tr : Translator)
    (stmt : Stmt) : List Obj × Translator :=
  match stmt with
  | .sentence text atoms =>
      match translate_sentence pm fuel tr text atoms true with
      | (some f, tr2) => ([closure f], tr2)
      | (none, tr2) => ([], tr2)
  | .directive _ _ => ([], tr)
  | .proofBlock _ _ => ([], tr)
  | .defnBlock _ c => translate_block pm fuel tr c
  | .axiomBlock _ c => translate_block pm fuel tr c
  | .lemmaBlock _ c => translate_block pm fuel tr c
  | .theoremBlock _ c _ => translate_block pm fuel tr c

/-! ## cache.py: the dependency-aware prover cache -/

/-- One row of the `proofs` table. -/
structure CacheRec where
  goal_hash : String
  dependencies : List String
  result : Bool
  context_hash : String
deriving Repr, DecidableEq

/-- `ProverCache.get_proof` (cache.py lines 53–75): scan the rows stored
for the goal (in insertion order, as SQLite returns same-key rows by
rowid); a success row answers `true` when its dependencies are all
available, a failure row answers `false` when its context hash matches
exactly; otherwise the scan continues, ending in *unknown*.  Stored
dependency lists always round-trip through JSON, so the decode-error
branch never fires. -/
def rowDecision (available_axiom_hashes : List String) (context_hash : String)
    (r : CacheRec) : Option Bool :=
  if r.result then
    if r.dependencies.all (available_axiom_hashes.contains ·) then some true else none
  else
    if r.context_hash = context_hash then some false else none

def get_proof (records : List CacheRec) (goal_hash : String)
    (available_axiom_hashes : List String) (context_hash : String) : Option Bool :=
  (records.filter (·.goal_hash = goal_hash)).findSome?
    (rowDecision available_axiom_hashes context_hash)

/-- `ProverCache.save_proof` (cache.py lines 77–100): insert unless an
identical row already exists. -/
def save_proof (records : List CacheRec) (goal_hash : String)
    (used_axiom_hashes : List String) (result : Bool) (context_hash : String) :
    List CacheRec :=
  let row : CacheRec := ⟨goal_hash, used_axiom_hashes, result, context_hash⟩
  if records.contains row then records else records ++ [row]

/-! ## prover adapters and manager -/

/-- `prover/base.py` `ProverResult`. -/
structure ProverResult where
  success : Bool
  used_axioms : Option (List String)
  output : String
deriving Repr

/-- The fixed prover registry of `ProverManager` (prover_manager.py):
insertion-ordered names, default active prover `vampire`. -/
def allProverNames : List String := ["eprover", "vampire", "dummy"]

def defaultActiveProver : String := "vampire"

/-- Stable insertion into a sorted string list (duplicates kept). -/
def insertSortedDup (n : String) : List String → List String
  | [] => [n]
  | m :: ms => if n ≤ m then n :: m :: ms else m :: insertSortedDup n ms

/-- Python `sorted` on strings (duplicates kept). -/
def pySortStrings (l : List String) : List String := l.foldr insertSortedDup []

/-- Python `list(set(l))` — deduplication; Python's set order is
unspecified, we fix first-occurrence order (only the membership view is
ever consumed). -/
def firstDedup (l : List String) : List String :=
  l.foldl (fun acc x => if acc.contains x then acc else acc ++ [x]) []

/-- The result quadruple of `verify_task`: `(is_cached, success,
goal_hash, benchmark_results)`.  Benchmark results map prover name to
success; the wall-clock duration Python also records is real time and is
not modelled. -/
structure VTResult where
  is_cached : Bool
  success : Bool
  goal_hash : String
  benchmark : List (String × Bool)
deriving Repr

/-- `engine.verify_task` (engine.py lines 39–118), instrumented with the
list of prover invocations `(prover name, timeout seconds)` it performs.
`hashF` is the sha256 oracle (`compute_hash_formula f =
hashF (str(f))`); `prove` is the external-ATP oracle; the cache store is
threaded as a value. -/
def verify_task (hashF : String → String)
    (prove : String → List (String × Obj) → String × Obj → ℚ → ProverResult)
    (axioms_repr context_repr proof_context_repr : List (String × Obj))
    (goal_repr : Obj) (prover_name : String) (use_cache : Bool)
    (benchmark_mode : Bool) (manager_names : Option (List String))
    (timeout_override : Option ℚ) (cache_store : List CacheRec) :
    VTResult × List CacheRec × List (String × ℚ) :=
  let all_axioms := axioms_repr ++ context_repr ++ proof_context_repr
  let axiom_hashes := all_axioms.foldl
    (fun d (p : String × Obj) => dictSet d p.1 (hashF (py_str p.2))) []
  let goal_hash := hashF (py_str goal_repr)
  let sorted_hashes := pySortStrings (axiom_hashes.map (·.2))
  let context_hash_str := py_join "|" sorted_hashes
  let full_context_hash := context_hash_str ++ "|GOAL:" ++ goal_hash
  let available := axiom_hashes.map (·.2)
  let cached : Option Bool :=
    if use_cache ∧ ¬benchmark_mode then
      get_proof cache_store goal_hash available full_context_hash
    else none
  match cached with
  | some b => (⟨true, b, goal_hash, []⟩, cache_store, [])
  | none =>
      if benchmark_mode ∧ manager_names.isSome then
        let names := manager_names.getD []
        let results := names.map (fun p =>
          (p, (prove p all_axioms ("goal", goal_repr) 1).success))
        (⟨false, results.any (·.2), goal_hash, results⟩, cache_store,
          names.map (fun p => (p, (1 : ℚ))))
      else
        -- standard mode: `t = timeout_override if timeout_override else 5.0`
        -- (a `None` or zero override falls back to 5.0 by Python falsiness)
        let t : ℚ := match timeout_override with
          | some v => if v = 0 then 5 else v
          | none => 5
        let result := prove prover_name all_axioms ("goal", goal_repr) t
        let store2 :=
          if use_cache ∧ ¬benchmark_mode then
            if result.success then
              let used_hashes := match result.used_axioms with
                | none => firstDedup available
                | some used => used.filterMap (fun nm => dictGet axiom_hashes nm)
              save_proof cache_store goal_hash used_hashes true full_context_hash
            else save_proof cache_store goal_hash [] false full_context_hash
          else cache_store
        (⟨false, result.success, goal_hash, []⟩, store2, [(prover_name, t)])

/-! ## engine.py: the dispatch engine -/

/-- The built-in structural axioms seeded by `Engine._add_builtin_axioms`
(engine.py lines 185–243), in append order. -/
def builtinAxioms : List (String × Obj) :=
  let x := Obj.Variable "X_set"
  let a := Obj.Variable "A_set"
  let b := Obj.Variable "B_set"
  let y := Obj.Variable "Y_sing"
  let z := Obj.Variable "Z_enum"
  let va := Obj.Variable "Va"
  let vb := Obj.Variable "Vb"
  let vc := Obj.Variable "Vc"
  let vd := Obj.Variable "Vd"
  [("builtin_setminus", .Quantifier "forall" [x, a, b]
      (.Iff (.Predicate "in" [x, .Function "setminus" [a, b]])
        (.And (.Predicate "in" [x, a]) (.Not (.Predicate "in" [x, b]))))),
   ("builtin_cap", .Quantifier "forall" [x, a, b]
      (.Iff (.Predicate "in" [x, .Function "cap" [a, b]])
        (.And (.Predicate "in" [x, a]) (.Predicate "in" [x, b])))),
   ("builtin_cup", .Quantifier "forall" [x, a, b]
      (.Iff (.Predicate "in" [x, .Function "cup" [a, b]])
        (.Or (.Predicate "in" [x, a]) (.Predicate "in" [x, b])))),
   ("builtin_empty", .Quantifier "forall" [x]
      (.Not (.Predicate "in" [x, .Constant "empty_set"]))),
   ("builtin_singleton", .Quantifier "forall" [x, y]
      (.Iff (.Predicate "in" [x, .Function "singleton" [y]]) (.Equal x y))),
   ("builtin_set_enum", .Quantifier "forall" [x, y, z]
      (.Iff (.Predicate "in" [x, .Function "set_enum" [y, z]])
        (.Or (.Equal x y) (.Equal x z)))),
   ("builtin_pair_eq", .Quantifier "forall" [va, vb, vc, vd]
      (.Implies (.Equal (.Function "pair" [va, vb]) (.Function "pair" [vc, vd]))
        (.And (.Equal va vc) (.Equal vb vd))))]

/-- The mutable engine state (engine.py `Engine.__init__`). -/
structure EngineState where
  translator : Translator
  axioms : List (String × Obj)
  context : List (String × Obj)
  counter : Nat
  processed_files : List String
  global_use_cache : Bool
  current_cache_enabled : Bool
  benchmark_mode : Bool
  active_prover : String
  timelimit : ℚ
  current_goal : Option Obj
deriving Repr

/-- A fresh engine (engine.py lines 163–183; the builtin axioms are
seeded on construction, `current_goal` is initially unset). -/
def engineInit (use_cache benchmark : Bool) : EngineState :=
  { translator := ⟨[], []⟩
    axioms := builtinAxioms
    context := []
    counter := 0
    processed_files := []
    global_use_cache := use_cache
    current_cache_enabled := use_cache
    benchmark_mode := benchmark
    active_prover := defaultActiveProver
    timelimit := 5
    current_goal := none }

/-- Python `float(s)` on decimal numerals (optional sign, optional
fractional part); scientific notation and special values, which no
directive argument uses, are not modelled and yield `none` (as a parse
error would). -/
def parsePyFloat (s : String) : Option ℚ :=
  let t := py_strip s
  let (sign, body) : ℚ × String :=
    if py_startswith t "-" then (-1, String.mk t.data.tail)
    else if py_startswith t "+" then (1, String.mk t.data.tail)
    else (1, t)
  let digitsVal : List Char → Option Nat := fun l =>
    if l.all Char.isDigit then
      some (l.foldl (fun acc c => acc * 10 + (c.toNat - 48)) 0)
    else none
  match py_split body "." with
  | [ip] =>
      if ip.isEmpty then none
      else (digitsVal ip.data).map (fun v => sign * (v : ℚ))
  | [ip, fp] =>
      if ip.isEmpty ∧ fp.isEmpty then none
      else
        match digitsVal ip.data, digitsVal fp.data with
        | some iv, some fv =>
            some (sign * ((iv : ℚ) + (fv : ℚ) / ((10 : ℚ) ^ fp.length)))
        | _, _ => none
  | _ => none

/-- The goal decomposition loop of `Engine.check_proof` (engine.py lines
417–443): strip a leading universal quantifier by substituting each bound
variable with the constant named by its lower-cased name, strip a leading
implication into a `goal_assump_<counter>` context entry; fuel-indexed
(the wrapper supplies the spine depth, which is sufficient). -/
def decomposeGoalAux : Nat → Obj → Nat → List (String × Obj) × Obj × Nat
  | 0, g, cnt => ([], g, cnt)
  | fuel + 1, g, cnt =>
      match g with
      | .Quantifier ty vs body =>
          if ty = "forall" then
            let term := vs.foldl (fun t v =>
              let vn := (nameAttr v).getD ""
              substitute t vn (.Constant (py_lower vn))) body
            decomposeGoalAux fuel term cnt
          else ([], .Quantifier ty vs body, cnt)
      | .Implies l r =>
          let res := decomposeGoalAux fuel r (cnt + 1)
          (("goal_assump_" ++ toString cnt, l) :: res.1, res.2.1, res.2.2)
      | g' => ([], g', cnt)

/-- Number of leading-strippable constructors below a node: an upper
bound on the decomposition loop's iterations. -/
def spineDepth : Obj → Nat
  | .Quantifier _ _ body => spineDepth body + 1
  | .Implies _ r => spineDepth r + 1
  | _ => 0

/-- `Engine.check_proof`'s goal decomposition as a total function. -/
def decomposeGoal (g : Obj) (cnt : Nat) : List (String × Obj) × Obj × Nat :=
  decomposeGoalAux (spineDepth g + 1) g cnt

/-- One submitted proof obligation: the by-value snapshot
`executor.submit(verify_task, …)` captures (engine.py lines 529–561),
plus the step number and description used for reporting. -/
structure PTask where
  axioms : List (String × Obj)
  context : List (String × Obj)
  proof_context : List (String × Obj)
  goal : Obj
  prover : String
  use_cache : Bool
  benchmark : Bool
  timelimit : ℚ
  step_num : Nat
  descr : String
deriving Repr

/-- The loop-local state of `Engine.check_proof`: threaded translator,
proof context, scope stack (Python appends and pops at the back), task
list, and the engine's time limit (mutable via in-proof directives). -/
structure PLoopState where
  translator : Translator
  proof_context : List (String × Obj)
  scope_stack : List (List (String × Obj))
  tasks : List PTask
  timelimit : ℚ
deriving Repr

/-- The words opening an assumption step (engine.py lines 502–510). -/
def assumptionWords : List String := ["Assume", "Let", "Take", "Define", "Consider"]

/-- `isinstance(f, Predicate) and f.name == nm`. -/
def isPredNamed (nm : String) : Obj → Bool
  | .Predicate n _ => n = nm
  | _ => false

/-- One iteration of the proof-body loop of `Engine.check_proof`
(engine.py lines 453–563) at enumerate index `i`. -/
def checkProofStep (pm : String → Option Obj) (fuel : Nat)
    (axioms context : List (String × Obj)) (prover : String)
    (use_cache benchmark : Bool) (focus : Option Obj)
    (st : PLoopState) (i : Nat) (stmt : Stmt) : PLoopState :=
  match stmt with
  | .directive nm args =>
      if nm = "timelimit" then
        match args with
        | [] => st
        | a :: _ =>
            match parsePyFloat a with
            | some v => { st with timelimit := v }
            | none => st
      else st
  | .sentence text atoms =>
      let tres := translate_sentence pm fuel st.translator text atoms false
      let st := { st with translator := tres.2 }
      let is_case := atoms.headD "" = "Case"
      if ¬atoms.isEmpty ∧ (atoms.headD "" = "End" ∨
          (atoms.length > 1 ∧ atoms.headD "" = "Case" ∧ atoms.getD 1 "" = "End")) then
        match st.scope_stack.getLast? with
        | some top => { st with proof_context := top, scope_stack := st.scope_stack.dropLast }
        | none => st
      else
        match tres.1 with
        | none => st
        | some f =>
            if is_case then
              { st with scope_stack := st.scope_stack ++ [st.proof_context],
                        proof_context := st.proof_context ++ [("step_" ++ toString i, f)] }
            else
              let is_assumption := assumptionWords.any
                (fun w => py_startswith (py_strip text) w)
              if isPredNamed "contrary" f then
                match focus with
                | some gf =>
                    { st with proof_context :=
                        st.proof_context ++ [("step_" ++ toString i, .Not gf)] }
                | none => st
              else if isPredNamed "false" f then
                { st with tasks := st.tasks ++
                    [⟨axioms, context, st.proof_context, .Predicate "false" [], prover,
                      use_cache, benchmark, st.timelimit, i + 1, "Contradiction"⟩] }
              else if is_assumption then
                { st with proof_context :=
                    st.proof_context ++ [("step_" ++ toString i, f)] }
              else
                { st with
                  tasks := st.tasks ++
                    [⟨axioms, context, st.proof_context, f, prover, use_cache,
                      benchmark, st.timelimit, i + 1,
                      "Verification of " ++ py_str f⟩],
                  proof_context :=
                    st.proof_context ++ [("step_" ++ toString i, f)] }
  | _ => st

/-- `Engine.check_proof` (engine.py lines 411–563): decompose the current
goal, then fold the proof body, returning the updated engine state and
the submitted obligations in submission order. -/
def check_proof (pm : String → Option Obj) (fuel : Nat) (st : EngineState)
    (content : List Stmt) : EngineState × List PTask :=
  let dec : List (String × Obj) × Option Obj × Nat :=
    match st.current_goal with
    | some g =>
        let r := decomposeGoal g st.counter
        (r.1, some r.2.1, r.2.2)
    | none => ([], none, st.counter)
  let init : PLoopState :=
    ⟨st.translator, dec.1, [], [], st.timelimit⟩
  let final := content.enum.foldl
    (fun s (p : Nat × Stmt) =>
      checkProofStep pm fuel st.axioms st.context st.active_prover
        st.current_cache_enabled st.benchmark_mode dec.2.1 s p.1 p.2) init
  ({ st with translator := final.translator, counter := dec.2.2,
             timelimit := final.timelimit }, final.tasks)

/-- `isinstance(f, Predicate) and f.name == "stand_for"`. -/
def isStandFor : Obj → Bool
  | .Predicate "stand_for" _ => true
  | _ => false

/-- Append translated block formulas as axioms, skipping `stand_for`
sentinels (engine.py lines 328–336 and 352–360). -/
def addAxiomFormulas (st : EngineState) (fs : List Obj) : EngineState :=
  fs.foldl (fun s f =>
    if isStandFor f then s
    else { s with axioms := s.axioms ++ [("ax_" ++ toString s.counter, f)],
                  counter := s.counter + 1 }) st

/-- The macro registration of one `stand_for` sentinel with a constant
phrase and exactly two arguments (engine.py lines 340–347). -/
def standForMacroUpdate (tr : Translator) : Obj → Translator
  | .Predicate "stand_for" [phrase_term, repl] =>
      match phrase_term with
      | .Constant ph => add_macro tr ph repl
      | _ => tr
  | _ => tr

/-- Register macros from `stand_for` sentinels (engine.py lines 338–347
and 362–371). -/
def applyStandForMacros (st : EngineState) (fs : List Obj) : EngineState :=
  fs.foldl (fun s f => { s with translator := standForMacroUpdate s.translator f }) st

/-- The non-`read` directive handling of `Engine.process_statement`
(engine.py lines 289–319): `cache on/off`, `prover`, `timelimit`,
`synonym`; unknown directives are ignored. -/
def processDirective (st : EngineState) (nm : String) (args : List String) :
    EngineState :=
  if nm = "cache" ∧ ¬args.isEmpty then
    if args.headD "" = "on" then
      { st with current_cache_enabled := st.global_use_cache }
    else if args.headD "" = "off" then
      { st with current_cache_enabled := false }
    else st
  else if nm = "prover" ∧ ¬args.isEmpty then
    if allProverNames.contains (args.headD "") then
      { st with active_prover := args.headD "" }
    else st
  else if nm = "timelimit" ∧ ¬args.isEmpty then
    match parsePyFloat (args.headD "") with
    | some v => { st with timelimit := v }
    | none => st
  else if nm = "synonym" ∧ ¬args.isEmpty then
    let arg := args.headD ""
    if strContains arg "/" then
      let parts := py_split arg "/"
      let base := parts.getD 0 ""
      let suffix := parts.getD 1 ""
      let plural :=
        if py_startswith suffix "-" then base ++ String.mk suffix.data.tail
        else suffix
      { st with translator := add_synonym st.translator base plural }
    else st
  else st

mutual

/-- `Engine.process_statement` (engine.py lines 284–409).  `resolve` is
the filesystem/parser oracle behind `process_file` (open + block
extraction + CNL parse + AST conversion, including the `math/`
subdirectory fallback): it returns the statement list of an included
path, or `none` when the file is missing or unreadable.  The read fuel
(first argument) bounds the include recursion, which Python bounds by the
processed-files set. -/
def process_statement (pm : String → Option Obj) (fuel : Nat)
    (resolve : String → Option (List Stmt)) :
    Nat → EngineState → Stmt → Bool → EngineState
  | 0, st, _, _ => st
  | rf + 1, st, stmt, is_included =>
      match stmt with
      | .directive nm args =>
          if nm = "read" ∧ ¬args.isEmpty then
            process_file pm fuel resolve rf st (args.headD "")
          else processDirective st nm args
      | .defnBlock nm c =>
          processDefAxLem pm fuel st (.defnBlock nm c)
      | .axiomBlock nm c =>
          processDefAxLem pm fuel st (.axiomBlock nm c)
      | .lemmaBlock nm c =>
          processDefAxLem pm fuel st (.lemmaBlock nm c)
      | .sentence text atoms =>
          processDefAxLem pm fuel st (.sentence text atoms)
      | .theoremBlock nm c author =>
          let tres := translate_statement pm fuel st.translator (.theoremBlock nm c author)
          let st1 := { st with translator := tres.2 }
          if is_included then
            match tres.1.getLast? with
            | some f =>
                { st1 with axioms := st1.axioms ++ [("thm_" ++ toString st1.counter, f)],
                           counter := st1.counter + 1 }
            | none => st1
          else
            match tres.1.getLast? with
            | none => st1
            | some lastf =>
                let st2 := { st1 with current_goal := some lastf }
                tres.1.dropLast.foldl (fun s f =>
                  { s with context := s.context ++ [("ctx_" ++ toString s.counter, f)],
                           counter := s.counter + 1 }) st2
      | .proofBlock _ c =>
          if is_included then st
          else (check_proof pm fuel st c).1

/-- The shared Definition/Axiom/Lemma and top-level Sentence handling of
`process_statement` (engine.py lines 321–371): append each translated
formula (skipping `stand_for` sentinels) as an `ax_<n>` axiom, then
register macros from `stand_for` sentinels. -/
def processDefAxLem (pm : String → Option Obj) (fuel : Nat) (st : EngineState)
    (stmt : Stmt) : EngineState :=
  let tres := translate_statement pm fuel st.translator stmt
  let st1 := { st with translator := tres.2 }
  applyStandForMacros (addAxiomFormulas st1 tres.1) tres.1

/-- `Engine.process_file` (engine.py lines 250–282): skip already-seen
paths, record the path, resolve and recursively check with
`is_included = True`. -/
def process_file (pm : String → Option Obj) (fuel : Nat)
    (resolve : String → Option (List Stmt)) :
    Nat → EngineState → String → EngineState
  | 0, st, _ => st
  | rf + 1, st, path =>
      if st.processed_files.contains path then st
      else
        let st2 := { st with processed_files := st.processed_files ++ [path] }
        match resolve path with
        | none => st2
        | some stmts => check_stmts pm fuel resolve rf st2 stmts true

/-- `Engine.check` (engine.py lines 246–248): fold the statements. -/
def check_stmts (pm : String → Option Obj) (fuel : Nat)
    (resolve : String → Option (List Stmt)) :
    Nat → EngineState → List Stmt → Bool → EngineState
  | 0, st, _, _ => st
  | rf + 1, st, stmts, is_included =>
      match stmts with
      | [] => st
      | s :: ss =>
          check_stmts pm fuel resolve rf
            (process_statement pm fuel resolve rf st s is_included) ss is_included

end



/-! ## Claim C8: canonical string rendering -/

mutual

/-- The canonical shapes of the rendering, written from the (amended)
specification: `L = R`; `~ (F)` (a space after the tilde); `(L & R)`,
`(L | R)`, `(L => R)`, `(L <=> R)`; a quantifier is rendered
`(! [v1,…,vk] : body)` / `(? [v1,…,vk] : body)` — the whole quantifier
parenthesized, the body not separately wrapped — with arguments rendered
recursively.  Identifier-level rendering (upper-casing, quoting) is
claim C5's subject and is shared. -/
def py_str_shapes : Obj → String
  | .Equal l r => py_str_shapes l ++ " = " ++ py_str_shapes r
  | .Not f => "~ (" ++ py_str_shapes f ++ ")"
  | .And l r => "(" ++ py_str_shapes l ++ " & " ++ py_str_shapes r ++ ")"
  | .Or l r => "(" ++ py_str_shapes l ++ " | " ++ py_str_shapes r ++ ")"
  | .Implies l r => "(" ++ py_str_shapes l ++ " => " ++ py_str_shapes r ++ ")"
  | .Iff l r => "(" ++ py_str_shapes l ++ " <=> " ++ py_str_shapes r ++ ")"
  | .Quantifier ty vs b =>
      let q := if ty = "forall" then "!" else "?"
      "(" ++ q ++ " [" ++ py_join "," (py_str_shapes_list vs) ++ "] : " ++
        py_str_shapes b ++ ")"
  | .Variable n => py_upper n
  | .Constant n => constantStr n
  | .Function n args =>
      if args.isEmpty then fnNameStr n
      else fnNameStr n ++ "(" ++ py_join "," (py_str_shapes_list args) ++ ")"
  | .Predicate n args =>
      if args.isEmpty then fnNameStr n
      else fnNameStr n ++ "(" ++ py_join "," (py_str_shapes_list args) ++ ")"
  | .pynone => "None"

def py_str_shapes_list : List Obj → List String
  | [] => []
  | a :: as => py_str_shapes a :: py_str_shapes_list as

end

mutual

theorem py_str_eq_shapes_aux (o : Obj) : py_str o = py_str_shapes o := by
  cases o with
  | Variable n => rfl
  | Constant n => rfl
  | Function n args =>
      simp only [py_str, py_str_shapes, py_str_list_eq_shapes_aux args]
  | Predicate n args =>
      simp only [py_str, py_str_shapes, py_str_list_eq_shapes_aux args]
  | Equal l r =>
      simp only [py_str, py_str_shapes, py_str_eq_shapes_aux l, py_str_eq_shapes_aux r]
  | Not f => simp only [py_str, py_str_shapes, py_str_eq_shapes_aux f]
  | And l r =>
      simp only [py_str, py_str_shapes, py_str_eq_shapes_aux l, py_str_eq_shapes_aux r]
  | Or l r =>
      simp only [py_str, py_str_shapes, py_str_eq_shapes_aux l, py_str_eq_shapes_aux r]
  | Implies l r =>
      simp only [py_str, py_str_shapes, py_str_eq_shapes_aux l, py_str_eq_shapes_aux r]
  | Iff l r =>
      simp only [py_str, py_str_shapes, py_str_eq_shapes_aux l, py_str_eq_shapes_aux r]
  | Quantifier ty vs b =>
      simp only [py_str, py_str_shapes, py_str_eq_shapes_aux b, py_str_list_eq_shapes_aux vs]
  | pynone => rfl

theorem py_str_list_eq_shapes_aux (l : List Obj) :
    py_str_list l = py_str_shapes_list l := by
  cases l with
  | nil => rfl
  | cons a as =>
      simp only [py_str_list, py_str_shapes_list, py_str_eq_shapes_aux a,
        py_str_list_eq_shapes_aux as]

end

/-- C8 (counterexample): the claim's exact shapes fail on the code.  A
negation renders `~ (p)` — with a space after the tilde — not `~(p)`;
and a universal quantifier renders `(! [X] : p(X))` — the whole
quantifier parenthesized and the body bare — not `! [X] : (p(X))`. -/
theorem C8_counterexample :
    py_str (Obj.Not (.Predicate "p" [])) = "~ (p)" ∧ "~ (p)" ≠ "~(p)" ∧
    py_str (Obj.Quantifier "forall" [.Variable "x"] (.Predicate "p" [.Variable "x"]))
      = "(! [X] : p(X))" ∧
    "(! [X] : p(X))" ≠ "! [X] : (p(X))" := by
  refine ⟨rfl, by decide, rfl, by decide⟩

/-- C8 (amended): the canonical rendering follows exactly the shapes
`L = R`, `~ (F)` (with a space after the tilde), `(L & R)`, `(L | R)`,
`(L => R)`, `(L <=> R)`, and `(! [v1,…,vk] : body)` /
`(? [v1,…,vk] : body)` for quantifiers — the whole quantifier
parenthesized and the body not separately parenthesized — with
arguments rendered recursively. -/
theorem C8_canonical_rendering (o : Obj) : py_str o = py_str_shapes o :=
  py_str_eq_shapes_aux o

/-- C8 witness: the amended rendering equation at a concrete formula. -/
theorem C8_canonical_rendering_witness :
    py_str (Obj.Implies (.Equal (.Variable "x") (.Constant "c")) (.Predicate "p" []))
      = py_str_shapes (Obj.Implies (.Equal (.Variable "x") (.Constant "c"))
          (.Predicate "p" [])) :=
  C8_canonical_rendering (Obj.Implies (.Equal (.Variable "x") (.Constant "c"))
    (.Predicate "p" []))



/-! ## Claim C5: TPTP identifier quoting -/

/-- "Single-quoted in the output": at least two characters, first and
last a single quote. -/
def isQuotedStr (s : String) : Bool :=
  decide (2 ≤ s.data.length) && (s.data.headD ' ' == Char.ofNat 39) &&
    (s.data.getLastD ' ' == Char.ofNat 39)

theorem py_lower_data (s : String) : (py_lower s).data = s.data.map Char.toLower := rfl

theorem py_lower_ne_empty {s : String} (h : s ≠ "") : py_lower s ≠ "" := by
  intro hc
  apply h
  have hd : s.data.map Char.toLower = [] := congrArg String.data hc
  rw [List.map_eq_nil_iff] at hd
  cases s with
  | mk l => rw [show l = [] from hd]

theorem needs_quote_false_matches {name : String} (hne : name ≠ "")
    (h : needs_quote name = false) : matchesIdent name = true := by
  unfold needs_quote at h
  split at h
  · rename_i hc
    exfalso
    apply hne
    cases name with
    | mk l =>
        cases l with
        | nil => rfl
        | cons a as => simp at hc
  · split at h
    · cases h
    · split at h
      · cases h
      · rename_i h2
        simpa using h2

theorem quote_name_quoted (name : String) : isQuotedStr (quote_name name) = true := by
  have hdata : (quote_name name).data =
      Char.ofNat 39 :: ((py_replace (py_replace name "\\" "\\\\")
        (String.singleton (Char.ofNat 39))
        ("\\" ++ String.singleton (Char.ofNat 39))).data ++ [Char.ofNat 39]) := by
    unfold quote_name
    rw [String.data_append, String.data_append]
    rfl
  unfold isQuotedStr
  rw [hdata]
  rw [show Char.ofNat 39 :: ((py_replace (py_replace name "\\" "\\\\")
        (String.singleton (Char.ofNat 39))
        ("\\" ++ String.singleton (Char.ofNat 39))).data ++ [Char.ofNat 39]) =
      (Char.ofNat 39 :: (py_replace (py_replace name "\\" "\\\\")
        (String.singleton (Char.ofNat 39))
        ("\\" ++ String.singleton (Char.ofNat 39))).data) ++ [Char.ofNat 39] from rfl]
  rw [List.getLastD_concat]
  simp [Bool.and_eq_true, decide_eq_true_eq]

/-- C5 (counterexample): the claim covers "constants whose stored name
begins with a backslash", but `Constant.__str__` returns the lower-cased
remainder of such a name without any quote check: the constant named
`\foo bar` renders as `foo bar`, which neither matches
`[a-z][a-zA-Z0-9_]*` nor is single-quoted. -/
theorem C5_counterexample :
    py_str (Obj.Constant "\\foo bar") = "foo bar" ∧
    matchesIdent "foo bar" = false ∧ isQuotedStr "foo bar" = false := by
  refine ⟨rfl, by decide, by decide⟩

/-- C5 (amended): every rendered function and predicate name, and every
rendered constant name that is non-empty and does not begin with a
backslash, either matches `[a-z][a-zA-Z0-9_]*` or is single-quoted;
a constant name beginning with a backslash is instead rendered as the
lower-cased remainder with no quote check (and may violate the rule, as
the counterexample shows). -/
theorem C5_identifier_quoting :
    (∀ name : String, name ≠ "" →
      matchesIdent (fnNameStr name) = true ∨ isQuotedStr (fnNameStr name) = true) ∧
    (∀ name : String, name ≠ "" → py_startswith name "\\" = false →
      matchesIdent (constantStr name) = true ∨ isQuotedStr (constantStr name) = true) ∧
    (∀ name : String, py_startswith name "\\" = true →
      constantStr name = py_lower (String.mk name.data.tail)) := by
  refine ⟨?_, ?_, ?_⟩
  · intro name hne
    unfold fnNameStr
    by_cases h : needs_quote name
    · rw [if_pos h]; exact Or.inr (quote_name_quoted name)
    · rw [if_neg h]; exact Or.inl (needs_quote_false_matches hne (by simpa using h))
  · intro name hne hbs
    unfold constantStr
    rw [hbs]
    simp only [Bool.false_eq_true, if_false]
    by_cases h : needs_quote name
    · rw [if_pos h]
      by_cases h2 : (name.data.headD ' ').isUpper
      · rw [if_pos h2]
        by_cases h3 : needs_quote (py_lower name)
        · rw [if_neg (by simp [h3])]; exact Or.inr (quote_name_quoted name)
        · rw [if_pos (by simp [h3])]
          exact Or.inl (needs_quote_false_matches (py_lower_ne_empty hne)
            (by simpa using h3))
      · rw [if_neg h2]; exact Or.inr (quote_name_quoted name)
    · rw [if_neg h]; exact Or.inl (needs_quote_false_matches hne (by simpa using h))
  · intro name hbs
    unfold constantStr
    rw [hbs]
    simp

/-- C5 witness: the amended statement applied at concrete names — an
already-valid lower word, an upper-case constant that lower-cases, a
symbol-laden name that gets quoted, and a backslash name. -/
theorem C5_identifier_quoting_witness :
    (matchesIdent (fnNameStr "subset_of") = true ∨ isQuotedStr (fnNameStr "subset_of") = true) ∧
    (matchesIdent (constantStr "Board") = true ∨ isQuotedStr (constantStr "Board") = true) ∧
    (matchesIdent (constantStr "1+2") = true ∨ isQuotedStr (constantStr "1+2") = true) ∧
    constantStr "\\emptyset" = py_lower (String.mk "\\emptyset".data.tail) :=
  ⟨C5_identifier_quoting.1 "subset_of" (by decide),
   C5_identifier_quoting.2.1 "Board" (by decide) (by decide),
   C5_identifier_quoting.2.1 "1+2" (by decide) (by decide),
   C5_identifier_quoting.2.2 "\\emptyset" (by decide)⟩



/-! ## Claim C1: cache lookup -/

/-- A stored success record valid in the available set: all its
dependency digests are present. -/
def successHit (available : List String) (r : CacheRec) : Prop :=
  r.result = true ∧ ∀ d ∈ r.dependencies, d ∈ available

/-- A stored failure record matching the current context exactly. -/
def failureHit (context_hash : String) (r : CacheRec) : Prop :=
  r.result = false ∧ r.context_hash = context_hash

theorem rowDecision_some_true_iff {avail ctx} {r : CacheRec} :
    rowDecision avail ctx r = some true ↔ successHit avail r := by
  unfold rowDecision successHit
  cases hr : r.result with
  | false => simp only [hr, Bool.false_eq_true, if_false]; split <;> simp
  | true =>
      simp only [hr, if_true, true_and]
      split
      · rename_i hall
        simp only [List.all_eq_true] at hall
        constructor
        · intro _ d hd
          have := hall d hd
          simpa [List.elem_iff] using this
        · intro _; rfl
      · rename_i hall
        simp only [List.all_eq_true] at hall
        push_neg at hall
        obtain ⟨d, hd, hnd⟩ := hall
        constructor
        · intro h; cases h
        · intro h
          exfalso
          exact hnd (by simpa [List.elem_iff] using h d hd)

theorem rowDecision_some_false_iff {avail ctx} {r : CacheRec} :
    rowDecision avail ctx r = some false ↔ failureHit ctx r := by
  unfold rowDecision failureHit
  cases hr : r.result with
  | true => simp only [hr, if_true]; split <;> simp
  | false =>
      simp only [hr, if_false, Bool.false_eq_true, true_and]
      split <;> simp_all

theorem rowDecision_none_iff {avail ctx} {r : CacheRec} :
    rowDecision avail ctx r = none ↔ ¬successHit avail r ∧ ¬failureHit ctx r := by
  constructor
  · intro h
    constructor
    · intro hs
      rw [← @rowDecision_some_true_iff avail ctx r] at hs
      rw [h] at hs; cases hs
    · intro hf
      rw [← @rowDecision_some_false_iff avail ctx r] at hf
      rw [h] at hf; cases hf
  · intro ⟨hs, hf⟩
    cases hd : rowDecision avail ctx r with
    | none => rfl
    | some b =>
        cases b with
        | true => exact absurd (rowDecision_some_true_iff.mp hd) hs
        | false => exact absurd (rowDecision_some_false_iff.mp hd) hf

theorem findSome?_of_all_none {α β : Type} {f : α → Option β} :
    ∀ {l : List α}, (∀ x ∈ l, f x = none) → l.findSome? f = none
  | [], _ => rfl
  | a :: as, h => by
      have ha := h a (List.mem_cons_self a as)
      simp only [List.findSome?, ha]
      exact findSome?_of_all_none (fun x hx => h x (List.mem_cons_of_mem a hx))

theorem findSome?_first_decided {α β : Type} {f : α → Option β} {v : β} :
    ∀ {l : List α}, (∀ x ∈ l, f x = none ∨ f x = some v) → (∃ x ∈ l, f x = some v) →
      l.findSome? f = some v
  | [], _, hex => by simp at hex
  | a :: as, h, hex => by
      cases ha : f a with
      | some w =>
          have : f a = none ∨ f a = some v := h a (List.mem_cons_self a as)
          rw [ha] at this
          rcases this with h1 | h1
          · cases h1
          · simp only [List.findSome?, ha]
            injection h1 with h1
            rw [h1]
      | none =>
          simp only [List.findSome?, ha]
          obtain ⟨x, hx, hfx⟩ := hex
          rcases List.mem_cons.mp hx with rfl | hx'
          · rw [ha] at hfx; cases hfx
          · exact findSome?_first_decided
              (fun y hy => h y (List.mem_cons_of_mem a hy)) ⟨x, hx', hfx⟩

theorem mem_goal_filter {records : List CacheRec} {gh : String} {r : CacheRec} :
    r ∈ records.filter (·.goal_hash = gh) ↔ r ∈ records ∧ r.goal_hash = gh := by
  simp [List.mem_filter]

/-- C1 (counterexample): as literally stated the claim fails, because a
stored failure record matching the current context can precede — and
shadow — a success record whose dependencies are all available.  With a
failure row for goal `g` under context `c` stored before a success row
with dependency set `{a}`, looking up goal `g` with available set `{a}`
and context `c` returns `false`, while the claim's first bullet promises
`true` (the success record's dependencies are a subset of the available
set). -/
theorem C1_counterexample :
    get_proof [⟨"g", [], false, "c"⟩, ⟨"g", ["a"], true, "x"⟩] "g" ["a"] "c"
      = some false ∧
    successHit ["a"] ⟨"g", ["a"], true, "x"⟩ ∧
    (⟨"g", ["a"], true, "x"⟩ : CacheRec) ∈
      [(⟨"g", [], false, "c"⟩ : CacheRec), ⟨"g", ["a"], true, "x"⟩] ∧
    some false ≠ some true := by
  refine ⟨rfl, ⟨rfl, by decide⟩, by simp, by decide⟩

/-- C1 (amended): the lookup scans the records stored for the goal in
insertion order and answers at the first deciding row, so: it returns
`true` when some stored success record for the goal has all its
dependencies available and *no* stored failure record for the goal
matches the current context hash; `false` in the symmetric case; and
*unknown* (`none`) when no stored record for the goal decides.  In
particular a success record with (any, e.g. non-empty) dependencies all
present in the available set yields `true` provided no failure record
matches, and an available set under which no record decides yields
*unknown*. -/
theorem C1_cache_lookup (records : List CacheRec) (gh : String)
    (avail : List String) (ctx : String) :
    ((∃ r ∈ records, r.goal_hash = gh ∧ successHit avail r) →
      (∀ r ∈ records, r.goal_hash = gh → ¬failureHit ctx r) →
      get_proof records gh avail ctx = some true) ∧
    ((∃ r ∈ records, r.goal_hash = gh ∧ failureHit ctx r) →
      (∀ r ∈ records, r.goal_hash = gh → ¬successHit avail r) →
      get_proof records gh avail ctx = some false) ∧
    ((∀ r ∈ records, r.goal_hash = gh → ¬successHit avail r ∧ ¬failureHit ctx r) →
      get_proof records gh avail ctx = none) := by
  refine ⟨?_, ?_, ?_⟩
  · intro ⟨r, hr, hgh, hs⟩ hnf
    apply findSome?_first_decided
    · intro x hx
      have hxm := mem_goal_filter.mp hx
      cases hd : rowDecision avail ctx x with
      | none => exact Or.inl rfl
      | some b =>
          cases b with
          | true => exact Or.inr rfl
          | false =>
              exact absurd (rowDecision_some_false_iff.mp hd) (hnf x hxm.1 hxm.2)
    · exact ⟨r, mem_goal_filter.mpr ⟨hr, hgh⟩, rowDecision_some_true_iff.mpr hs⟩
  · intro ⟨r, hr, hgh, hf⟩ hns
    apply findSome?_first_decided
    · intro x hx
      have hxm := mem_goal_filter.mp hx
      cases hd : rowDecision avail ctx x with
      | none => exact Or.inl rfl
      | some b =>
          cases b with
          | false => exact Or.inr rfl
          | true =>
              exact absurd (rowDecision_some_true_iff.mp hd) (hns x hxm.1 hxm.2)
    · exact ⟨r, mem_goal_filter.mpr ⟨hr, hgh⟩, rowDecision_some_false_iff.mpr hf⟩
  · intro hall
    apply findSome?_of_all_none
    intro x hx
    have hxm := mem_goal_filter.mp hx
    exact rowDecision_none_iff.mpr (hall x hxm.1 hxm.2)

/-- C1 witness: the amended lookup at concrete stores — a success record
with non-empty dependencies against a superset (no failure rows) answers
`true`; the same record against a set missing its dependency answers
*unknown*; a failure record matching the context answers `false`. -/
theorem C1_cache_lookup_witness :
    get_proof [⟨"g", ["a"], true, "x"⟩] "g" ["a", "b"] "c" = some true ∧
    get_proof [⟨"g", ["a"], true, "x"⟩] "g" ["b"] "c" = none ∧
    get_proof [⟨"g", [], false, "c"⟩] "g" ["b"] "c" = some false :=
  ⟨(C1_cache_lookup [⟨"g", ["a"], true, "x"⟩] "g" ["a", "b"] "c").1
      ⟨⟨"g", ["a"], true, "x"⟩, by simp, rfl, rfl, by decide⟩
      (by intro r hr _; simp at hr; subst hr; intro ⟨h1, _⟩; cases h1),
   (C1_cache_lookup [⟨"g", ["a"], true, "x"⟩] "g" ["b"] "c").2.2
      (by
        intro r hr _
        simp at hr
        subst hr
        refine ⟨fun ⟨_, hd⟩ => by simpa using hd "a" (by simp), fun ⟨h1, _⟩ => by cases h1⟩),
   (C1_cache_lookup [⟨"g", [], false, "c"⟩] "g" ["b"] "c").2.1
      ⟨⟨"g", [], false, "c"⟩, by simp, rfl, rfl, rfl⟩
      (by intro r hr _; simp at hr; subst hr; intro ⟨h1, _⟩; cases h1)⟩



/-! ## Claim C3: proof-check goal decomposition -/

mutual

/-- Whether the constant named `c` occurs anywhere in an object. -/
def constOccurs (c : String) : Obj → Bool
  | .Constant n => n = c
  | .Variable _ => false
  | .Function _ args => constOccursList c args
  | .Predicate _ args => constOccursList c args
  | .Equal l r => constOccurs c l || constOccurs c r
  | .Not f => constOccurs c f
  | .And l r => constOccurs c l || constOccurs c r
  | .Or l r => constOccurs c l || constOccurs c r
  | .Implies l r => constOccurs c l || constOccurs c r
  | .Iff l r => constOccurs c l || constOccurs c r
  | .Quantifier _ vs body => constOccursList c vs || constOccurs c body
  | .pynone => false

def constOccursList (c : String) : List Obj → Bool
  | [] => false
  | a :: as => constOccurs c a || constOccursList c as

end

/-- Substitution never changes the strippable spine: replacement happens
only in term positions, and formula constructors are preserved. -/
theorem substitute_spine (x : String) (rep : Obj) :
    ∀ f : Obj, spineDepth (substitute f x rep) = spineDepth f
  | .Predicate _ _ => rfl
  | .Equal _ _ => rfl
  | .Not _ => rfl
  | .And _ _ => rfl
  | .Or _ _ => rfl
  | .Implies l r => by
      simp only [substitute, spineDepth, substitute_spine x rep r]
  | .Iff _ _ => rfl
  | .Quantifier ty vs body => by
      simp only [substitute]
      split
      · rfl
      · simp only [spineDepth, substitute_spine x rep body]
  | .Variable _ => rfl
  | .Constant _ => rfl
  | .Function _ _ => rfl
  | .pynone => rfl

/-- The bound-variable substitution fold of the decomposition loop
preserves the spine. -/
theorem substFold_spine (vs : List Obj) (body : Obj) :
    spineDepth (vs.foldl (fun t v =>
      let vn := (nameAttr v).getD ""
      substitute t vn (.Constant (py_lower vn))) body) = spineDepth body := by
  induction vs generalizing body with
  | nil => rfl
  | cons v vs ih =>
      simp only [List.foldl_cons]
      rw [ih, substitute_spine]

/-- One-step equations of the decomposition loop. -/
theorem decomposeGoalAux_forall (fuel : Nat) (vs : List Obj) (body : Obj) (cnt : Nat) :
    decomposeGoalAux (fuel + 1) (.Quantifier "forall" vs body) cnt =
      decomposeGoalAux fuel
        (vs.foldl (fun t v =>
          let vn := (nameAttr v).getD ""
          substitute t vn (.Constant (py_lower vn))) body) cnt := rfl

theorem decomposeGoalAux_quant_other (fuel : Nat) (ty : String) (vs : List Obj)
    (body : Obj) (cnt : Nat) (h : ty ≠ "forall") :
    decomposeGoalAux (fuel + 1) (.Quantifier ty vs body) cnt =
      ([], .Quantifier ty vs body, cnt) := by
  simp only [decomposeGoalAux, if_neg h]

theorem decomposeGoalAux_implies (fuel : Nat) (l r : Obj) (cnt : Nat) :
    decomposeGoalAux (fuel + 1) (.Implies l r) cnt =
      (("goal_assump_" ++ toString cnt, l) :: (decomposeGoalAux fuel r (cnt + 1)).1,
        (decomposeGoalAux fuel r (cnt + 1)).2.1,
        (decomposeGoalAux fuel r (cnt + 1)).2.2) := rfl

/-- The decomposition loop is insensitive to extra fuel past the spine
depth. -/
theorem decomposeGoalAux_stable :
    ∀ (fuel : Nat) (g : Obj) (cnt : Nat), spineDepth g < fuel →
      decomposeGoalAux fuel g cnt = decomposeGoalAux (spineDepth g + 1) g cnt := by
  intro fuel
  induction fuel with
  | zero => intro g cnt h; omega
  | succ fuel ih =>
      intro g cnt h
      cases g with
      | Quantifier ty vs body =>
          by_cases hty : ty = "forall"
          · subst hty
            rw [decomposeGoalAux_forall]
            have hsp := substFold_spine vs body
            have hlt : spineDepth (vs.foldl (fun t v =>
                let vn := (nameAttr v).getD ""
                substitute t vn (.Constant (py_lower vn))) body) < fuel := by
              rw [hsp]
              have hq : spineDepth (Obj.Quantifier "forall" vs body) =
                  spineDepth body + 1 := rfl
              omega
            rw [ih _ _ hlt]
            have h2 : spineDepth (Obj.Quantifier "forall" vs body) =
                spineDepth (vs.foldl (fun t v =>
                  let vn := (nameAttr v).getD ""
                  substitute t vn (.Constant (py_lower vn))) body) + 1 := by
              rw [hsp]; rfl
            rw [h2, decomposeGoalAux_forall]
          · rw [decomposeGoalAux_quant_other _ _ _ _ _ hty,
              decomposeGoalAux_quant_other _ _ _ _ _ hty]
      | Implies l r =>
          have hlt : spineDepth r < fuel := by
            have hq : spineDepth (Obj.Implies l r) = spineDepth r + 1 := rfl
            omega
          rw [decomposeGoalAux_implies, ih _ _ hlt,
            show spineDepth (Obj.Implies l r) = spineDepth r + 1 from rfl,
            decomposeGoalAux_implies]
      | Variable n => rfl
      | Constant n => rfl
      | Function n args => rfl
      | Predicate n args => rfl
      | Equal a b => rfl
      | Not f => rfl
      | And a b => rfl
      | Or a b => rfl
      | Iff a b => rfl
      | pynone => rfl

/-- Is the object a universal quantifier (the loop's first guard)? -/
def isForallQuant : Obj → Bool
  | .Quantifier ty _ _ => ty = "forall"
  | _ => false

/-- Is the object an implication (the loop's second guard)? -/
def isImpliesObj : Obj → Bool
  | .Implies _ _ => true
  | _ => false

theorem decomposeGoalAux_shape :
    ∀ (fuel : Nat) (g : Obj) (cnt : Nat), spineDepth g < fuel →
      isForallQuant (decomposeGoalAux fuel g cnt).2.1 = false ∧
      isImpliesObj (decomposeGoalAux fuel g cnt).2.1 = false := by
  intro fuel
  induction fuel with
  | zero => intro g cnt h; omega
  | succ fuel ih =>
      intro g cnt h
      cases g with
      | Quantifier ty vs body =>
          by_cases hty : ty = "forall"
          · subst hty
            simp only [decomposeGoalAux, if_pos rfl]
            apply ih
            rw [substFold_spine]
            have : spineDepth (Obj.Quantifier "forall" vs body) = spineDepth body + 1 := rfl
            omega
          · simp only [decomposeGoalAux, if_neg hty]
            exact ⟨by simp [isForallQuant, hty], rfl⟩
      | Implies l r =>
          have hlt : spineDepth r < fuel := by
            have : spineDepth (Obj.Implies l r) = spineDepth r + 1 := rfl
            omega
          simp only [decomposeGoalAux]
          exact ih r (cnt + 1) hlt
      | Variable n => exact ⟨rfl, rfl⟩
      | Constant n => exact ⟨rfl, rfl⟩
      | Function n args => exact ⟨rfl, rfl⟩
      | Predicate n args => exact ⟨rfl, rfl⟩
      | Equal a b => exact ⟨rfl, rfl⟩
      | Not f => exact ⟨rfl, rfl⟩
      | And a b => exact ⟨rfl, rfl⟩
      | Or a b => exact ⟨rfl, rfl⟩
      | Iff a b => exact ⟨rfl, rfl⟩
      | pynone => exact ⟨rfl, rfl⟩

/-- C3 (counterexample): the substituted constants are *not* fresh.  The
loop replaces each bound variable by the constant named by the
lower-cased variable name; decomposing `∀X. p(X, x)` — where the constant
`x` already occurs in the goal — yields the focus `p(x, x)`, identifying
the new constant with the existing one. -/
theorem C3_counterexample :
    decomposeGoal (.Quantifier "forall" [.Variable "X"]
        (.Predicate "p" [.Variable "X", .Constant "x"])) 0
      = ([], .Predicate "p" [.Constant "x", .Constant "x"], 0) ∧
    constOccurs "x" (.Quantifier "forall" [.Variable "X"]
        (.Predicate "p" [.Variable "X", .Constant "x"])) = true := by
  exact ⟨rfl, rfl⟩

/-- C3 (amended): the engine repeatedly strips outer universal
quantifiers — substituting each bound variable by the constant named by
the lower-cased variable name (not a fresh constant: it may already
occur, as the counterexample shows) — and strips outer implications,
prepending each left side to the proof context as a
`goal_assump_<counter>` entry, until the goal is neither a universal
quantifier nor an implication; the remaining formula is the goal
focus. -/
theorem C3_goal_decomposition (g : Obj) (cnt : Nat) :
    isForallQuant (decomposeGoal g cnt).2.1 = false ∧
    isImpliesObj (decomposeGoal g cnt).2.1 = false ∧
    (∀ vs body, g = .Quantifier "forall" vs body →
      decomposeGoal g cnt = decomposeGoal
        (vs.foldl (fun t v =>
          let vn := (nameAttr v).getD ""
          substitute t vn (.Constant (py_lower vn))) body) cnt) ∧
    (∀ l r, g = .Implies l r →
      decomposeGoal g cnt =
        (("goal_assump_" ++ toString cnt, l) :: (decomposeGoal r (cnt + 1)).1,
          (decomposeGoal r (cnt + 1)).2.1, (decomposeGoal r (cnt + 1)).2.2)) ∧
    (isForallQuant g = false → isImpliesObj g = false →
      decomposeGoal g cnt = ([], g, cnt)) := by
  refine ⟨?_, ?_, ?_, ?_, ?_⟩
  · exact (decomposeGoalAux_shape (spineDepth g + 1) g cnt (by omega)).1
  · exact (decomposeGoalAux_shape (spineDepth g + 1) g cnt (by omega)).2
  · intro vs body hg
    subst hg
    unfold decomposeGoal
    rw [decomposeGoalAux_forall]
    have h2 : spineDepth (Obj.Quantifier "forall" vs body) =
        spineDepth (vs.foldl (fun t v =>
          let vn := (nameAttr v).getD ""
          substitute t vn (.Constant (py_lower vn))) body) + 1 := by
      rw [substFold_spine]; rfl
    rw [h2]
  · intro l r hg
    subst hg
    unfold decomposeGoal
    rw [decomposeGoalAux_implies,
      show spineDepth (Obj.Implies l r) = spineDepth r + 1 from rfl]
  · intro hq hi
    unfold decomposeGoal
    cases g with
    | Quantifier ty vs body =>
        have hty : ty ≠ "forall" := by
          intro hc; subst hc; simp [isForallQuant] at hq
        simp only [decomposeGoalAux, if_neg hty]
    | Implies l r => simp [isImpliesObj] at hi
    | Variable n => rfl
    | Constant n => rfl
    | Function n args => rfl
    | Predicate n args => rfl
    | Equal a b => rfl
    | Not f => rfl
    | And a b => rfl
    | Or a b => rfl
    | Iff a b => rfl
    | pynone => rfl

/-- C3 witness: the amended decomposition at a concrete goal
`∀X. (q(X) → p(X))`: one stripped quantifier, one stripped implication
with its `goal_assump_3` context entry, focus `p(x)`. -/
theorem C3_goal_decomposition_witness :
    isForallQuant (decomposeGoal (.Quantifier "forall" [.Variable "X"]
        (.Implies (.Predicate "q" [.Variable "X"])
          (.Predicate "p" [.Variable "X"]))) 3).2.1 = false ∧
    decomposeGoal (.Quantifier "forall" [.Variable "X"]
        (.Implies (.Predicate "q" [.Variable "X"]) (.Predicate "p" [.Variable "X"]))) 3
      = decomposeGoal (.Implies (.Predicate "q" [.Constant "x"])
          (.Predicate "p" [.Constant "x"])) 3 :=
  ⟨(C3_goal_decomposition (.Quantifier "forall" [.Variable "X"]
      (.Implies (.Predicate "q" [.Variable "X"]) (.Predicate "p" [.Variable "X"]))) 3).1,
   (C3_goal_decomposition (.Quantifier "forall" [.Variable "X"]
      (.Implies (.Predicate "q" [.Variable "X"]) (.Predicate "p" [.Variable "X"]))) 3).2.2.1
     [.Variable "X"] (.Implies (.Predicate "q" [.Variable "X"])
        (.Predicate "p" [.Variable "X"])) rfl⟩



/-! ## Claim C4: the closed-axiom invariant -/

theorem mem_sortedInsert {m n : String} : ∀ {l : List String},
    m ∈ sortedInsert n l ↔ m = n ∨ m ∈ l := by
  intro l
  induction l with
  | nil => simp [sortedInsert]
  | cons a as ih =>
      unfold sortedInsert
      by_cases h1 : n = a
      · subst h1
        simp only [if_pos rfl]
        constructor
        · intro h; exact Or.inr h
        · rintro (rfl | h)
          · exact List.mem_cons_self _ _
          · exact h
      · rw [if_neg h1]
        by_cases h2 : n < a
        · rw [if_pos h2]; simp
        · rw [if_neg h2]
          simp only [List.mem_cons, ih]
          tauto

theorem mem_sortDedup {m : String} : ∀ {l : List String},
    m ∈ sortDedup l ↔ m ∈ l := by
  intro l
  induction l with
  | nil => simp [sortDedup]
  | cons a as ih =>
      unfold sortDedup at *
      simp only [List.foldr_cons, mem_sortedInsert, ih, List.mem_cons]

/-- `closure` really closes: the result has no free variables. -/
theorem closure_closed (f : Obj) : get_free_vars (closure f) = [] := by
  unfold closure
  by_cases h : (sortDedup (get_free_vars f)).isEmpty
  · rw [if_pos h]
    rw [List.isEmpty_iff] at h
    rcases he : get_free_vars f with _ | ⟨x, xs⟩
    · rfl
    · exfalso
      have hx : x ∈ sortDedup (get_free_vars f) :=
        mem_sortDedup.mpr (by rw [he]; exact List.mem_cons_self _ _)
      rw [h] at hx
      cases hx
  · rw [if_neg h]
    show List.filter _ (get_free_vars f) = []
    rw [List.filter_eq_nil_iff]
    intro n hn
    have hmem : n ∈ sortDedup (get_free_vars f) := mem_sortDedup.mpr hn
    have hany : ((sortDedup (get_free_vars f)).map Obj.Variable).any
        (fun v => match v with | .Variable m => m = n | _ => false) = true := by
      rw [List.any_eq_true]
      exact ⟨Obj.Variable n, List.mem_map_of_mem _ hmem, by simp⟩
    simp [hany]

/-- Every formula produced by `translate_block` is a `closure`, hence
closed. -/
theorem translate_block_out_closed (pm : String → Option Obj) (fuel : Nat)
    (tr : Translator) (c : List Stmt) :
    ∀ f ∈ (translate_block pm fuel tr c).1, get_free_vars f = [] := by
  intro f hf
  unfold translate_block at hf
  rcases hsp : translate_block_split pm fuel tr c with ⟨asms, concs, tr2⟩
  rw [hsp] at hf
  cases concs with
  | nil =>
      simp only at hf
      obtain ⟨a, _, rfl⟩ := List.mem_map.mp hf
      exact closure_closed a
  | cons cc cs =>
      cases asms with
      | nil =>
          simp only at hf
          rw [List.mem_singleton] at hf
          subst hf
          exact closure_closed _
      | cons aa as =>
          simp only at hf
          rw [List.mem_singleton] at hf
          subst hf
          exact closure_closed _

/-- Every formula produced by `translate_statement` is closed. -/
theorem translate_statement_out_closed (pm : String → Option Obj) (fuel : Nat)
    (tr : Translator) (stmt : Stmt) :
    ∀ f ∈ (translate_statement pm fuel tr stmt).1, get_free_vars f = [] := by
  intro f hf
  cases stmt with
  | sentence text atoms =>
      simp only [translate_statement] at hf
      rcases ht : translate_sentence pm fuel tr text atoms true with ⟨g?, tr2⟩
      rw [ht] at hf
      cases g? with
      | none => cases hf
      | some g =>
          rw [List.mem_singleton] at hf
          subst hf
          exact closure_closed g
  | directive nm args => cases hf
  | proofBlock nm c => cases hf
  | defnBlock nm c => exact translate_block_out_closed pm fuel tr c f hf
  | axiomBlock nm c => exact translate_block_out_closed pm fuel tr c f hf
  | lemmaBlock nm c => exact translate_block_out_closed pm fuel tr c f hf
  | theoremBlock nm c author => exact translate_block_out_closed pm fuel tr c f hf

/-- All axiom formulas of an engine state are closed. -/
def axiomsClosed (st : EngineState) : Prop :=
  ∀ p ∈ st.axioms, get_free_vars p.2 = []

theorem addAxiomFormulas_closed : ∀ (fs : List Obj) (st : EngineState),
    axiomsClosed st → (∀ f ∈ fs, get_free_vars f = []) →
    axiomsClosed (addAxiomFormulas st fs)
  | [], st, h, _ => h
  | f :: fs, st, h, hfs => by
      have hstep : addAxiomFormulas st (f :: fs) =
          addAxiomFormulas (if isStandFor f then st
            else { st with axioms := st.axioms ++ [("ax_" ++ toString st.counter, f)],
                           counter := st.counter + 1 }) fs := by
        unfold addAxiomFormulas
        rw [List.foldl_cons]
      rw [hstep]
      by_cases hsf : isStandFor f
      · rw [if_pos hsf]
        exact addAxiomFormulas_closed fs st h
          (fun g hg => hfs g (List.mem_cons_of_mem _ hg))
      · rw [if_neg hsf]
        refine addAxiomFormulas_closed fs _ ?_
          (fun g hg => hfs g (List.mem_cons_of_mem _ hg))
        intro p hp
        rcases List.mem_append.mp hp with h1 | h1
        · exact h p h1
        · rw [List.mem_singleton] at h1
          rw [h1]
          exact hfs f (List.mem_cons_self _ _)

/-- Registering macros does not touch the axiom list. -/
theorem applyStandForMacros_axioms : ∀ (fs : List Obj) (st : EngineState),
    (applyStandForMacros st fs).axioms = st.axioms
  | [], _ => rfl
  | f :: fs, st => by
      have hstep : applyStandForMacros st (f :: fs) =
          applyStandForMacros { st with
            translator := standForMacroUpdate st.translator f } fs := by
        unfold applyStandForMacros
        rw [List.foldl_cons]
      rw [hstep, applyStandForMacros_axioms fs]


/-- Non-`read` directives never touch the axiom list. -/
theorem processDirective_axioms (st : EngineState) (nm : String) (args : List String) :
    (processDirective st nm args).axioms = st.axioms := by
  unfold processDirective
  repeat' split
  all_goals (try rfl)
  all_goals (dsimp only; split <;> rfl)

/-- `check_proof` never touches the axiom list. -/
theorem check_proof_axioms (pm : String → Option Obj) (fuel : Nat) (st : EngineState)
    (content : List Stmt) : ((check_proof pm fuel st content).1).axioms = st.axioms := rfl

/-- The theorem-context fold never touches the axiom list. -/
theorem ctxFold_axioms : ∀ (fs : List Obj) (st : EngineState),
    (fs.foldl (fun s f =>
      { s with context := s.context ++ [("ctx_" ++ toString s.counter, f)],
               counter := s.counter + 1 }) st).axioms = st.axioms
  | [], _ => rfl
  | f :: fs, st => by
      rw [List.foldl_cons, ctxFold_axioms fs]

/-- Definition/axiom/lemma/sentence processing preserves closedness. -/
theorem processDefAxLem_closed (pm : String → Option Obj) (fuel : Nat)
    (st : EngineState) (stmt : Stmt) (h : axiomsClosed st) :
    axiomsClosed (processDefAxLem pm fuel st stmt) := by
  unfold processDefAxLem
  intro p hp
  rw [applyStandForMacros_axioms] at hp
  refine addAxiomFormulas_closed _ _ ?_ ?_ p hp
  · intro q hq
    exact h q hq
  · exact translate_statement_out_closed pm fuel st.translator stmt

mutual

theorem process_statement_closed (pm : String → Option Obj) (fuel : Nat)
    (resolve : String → Option (List Stmt)) :
    ∀ (rf : Nat) (st : EngineState) (stmt : Stmt) (inc : Bool),
      axiomsClosed st → axiomsClosed (process_statement pm fuel resolve rf st stmt inc)
  | 0, _, _, _, h => h
  | rf + 1, st, stmt, inc, h => by
      cases stmt with
      | directive nm args =>
          simp only [process_statement]
          split
          · exact process_file_closed pm fuel resolve rf st (args.headD "") h
          · intro p hp
            rw [processDirective_axioms] at hp
            exact h p hp
      | defnBlock nm c =>
          simp only [process_statement]
          exact processDefAxLem_closed pm fuel st _ h
      | axiomBlock nm c =>
          simp only [process_statement]
          exact processDefAxLem_closed pm fuel st _ h
      | lemmaBlock nm c =>
          simp only [process_statement]
          exact processDefAxLem_closed pm fuel st _ h
      | sentence text atoms =>
          simp only [process_statement]
          exact processDefAxLem_closed pm fuel st _ h
      | theoremBlock nm c author =>
          simp only [process_statement]
          rcases ht : translate_statement pm fuel st.translator (.theoremBlock nm c author)
            with ⟨fs, tr2⟩
          dsimp only
          cases inc with
          | true =>
              rw [if_pos (rfl : true = true)]
              cases hlast : fs.getLast? with
              | none =>
                  simp only [hlast]
                  intro p hp
                  exact h p hp
              | some f =>
                  simp only [hlast]
                  intro p hp
                  rcases List.mem_append.mp hp with h1 | h1
                  · exact h p h1
                  · rw [List.mem_singleton] at h1
                    rw [h1]
                    have hfm : f ∈ fs := List.mem_of_mem_getLast? hlast
                    have hcl := translate_statement_out_closed pm fuel st.translator
                      (.theoremBlock nm c author)
                    rw [ht] at hcl
                    exact hcl f hfm
          | false =>
              rw [if_neg (by simp : ¬(false = true))]
              cases hlast : fs.getLast? with
              | none =>
                  simp only [hlast]
                  intro p hp
                  exact h p hp
              | some f =>
                  simp only [hlast]
                  intro p hp
                  rw [ctxFold_axioms] at hp
                  exact h p hp
      | proofBlock nm c =>
          simp only [process_statement]
          cases inc with
          | true =>
              rw [if_pos (rfl : true = true)]
              exact h
          | false =>
              rw [if_neg (by simp : ¬(false = true))]
              intro p hp
              rw [check_proof_axioms] at hp
              exact h p hp

theorem process_file_closed (pm : String → Option Obj) (fuel : Nat)
    (resolve : String → Option (List Stmt)) :
    ∀ (rf : Nat) (st : EngineState) (path : String),
      axiomsClosed st → axiomsClosed (process_file pm fuel resolve rf st path)
  | 0, _, _, h => h
  | rf + 1, st, path, h => by
      simp only [process_file]
      split
      · exact h
      · cases hres : resolve path with
        | none =>
            simp only [hres]
            intro p hp
            exact h p hp
        | some stmts =>
            simp only [hres]
            exact check_stmts_closed pm fuel resolve rf _ stmts true
              (fun p hp => h p hp)

theorem check_stmts_closed (pm : String → Option Obj) (fuel : Nat)
    (resolve : String → Option (List Stmt)) :
    ∀ (rf : Nat) (st : EngineState) (stmts : List Stmt) (inc : Bool),
      axiomsClosed st → axiomsClosed (check_stmts pm fuel resolve rf st stmts inc)
  | 0, _, _, _, h => h
  | rf + 1, st, stmts, inc, h => by
      cases stmts with
      | nil => exact h
      | cons s ss =>
          simp only [check_stmts]
          exact check_stmts_closed pm fuel resolve rf _ ss inc
            (process_statement_closed pm fuel resolve rf st s inc h)

end

/-- C4: at every point in a run every axiom formula is closed — the
built-in structural axioms are closed, a fresh engine's axiom list is
closed, and both `process_statement` (covering translated
definition/axiom/lemma blocks, top-level sentences, imported theorems
from included files, and recursively included files) and `check` over a
statement stream preserve the property, because every translated formula
is universally closured before being appended. -/
theorem C4_closed_axioms :
    (∀ p ∈ builtinAxioms, get_free_vars p.2 = []) ∧
    (∀ u b : Bool, axiomsClosed (engineInit u b)) ∧
    (∀ (pm : String → Option Obj) (fuel : Nat)
      (resolve : String → Option (List Stmt)) (rf : Nat) (st : EngineState)
      (stmt : Stmt) (inc : Bool), axiomsClosed st →
        axiomsClosed (process_statement pm fuel resolve rf st stmt inc)) ∧
    (∀ (pm : String → Option Obj) (fuel : Nat)
      (resolve : String → Option (List Stmt)) (rf : Nat) (st : EngineState)
      (stmts : List Stmt) (inc : Bool), axiomsClosed st →
        axiomsClosed (check_stmts pm fuel resolve rf st stmts inc)) := by
  have hb : ∀ p ∈ builtinAxioms, get_free_vars p.2 = [] := by decide
  exact ⟨hb,
   fun _ _ => hb,
   fun pm fuel resolve rf st stmt inc h =>
     process_statement_closed pm fuel resolve rf st stmt inc h,
   fun pm fuel resolve rf st stmts inc h =>
     check_stmts_closed pm fuel resolve rf st stmts inc h⟩

/-- C4 witness: processing a concrete axiom block (one assumption, one
conclusion, with a free variable each) from a fresh engine leaves every
axiom closed. -/
theorem C4_closed_axioms_witness :
    axiomsClosed (process_statement
      (fun st => if st = "$X$" then some (.Variable "X") else none) 50
      (fun _ => none) 10 (engineInit true false)
      (.axiomBlock "" [.sentence "Let $X$ be a set." ["Let", "$X$", "be", "a", "set", "."],
                       .sentence "$X$ is an object." ["$X$", "is", "an", "object", "."]])
      false) :=
  C4_closed_axioms.2.2.1 (fun st => if st = "$X$" then some (.Variable "X") else none)
    50 (fun _ => none) 10 (engineInit true false) _ false
    (by unfold axiomsClosed; decide)



/-! ## Claim C2: theorem handling -/

/-- The single formula a block with conclusions translates to: the
closure of (assumption conjunction → conclusion conjunction), or of the
conclusion conjunction alone. -/
def blockCombined (asms : List Obj) (cc : Obj) (cs : List Obj) : Obj :=
  match asms with
  | [] => closure (andChain cc cs)
  | a :: as => closure (.Implies (andChain a as) (andChain cc cs))

/-- C2 (counterexample): for the theorem block with assumption sentence
"Assume the contrary." and conclusion sentence "Contradiction.", the
engine's working goal becomes the *single closed implication*
`contrary() => false()` produced by block translation — not the last
conclusion formula `false()` unclosed — and *no* theorem-level context
entry is added for the assumption. -/
theorem C2_counterexample :
    (process_statement (fun _ => none) 50 (fun _ => none) 10 (engineInit true false)
      (.theoremBlock "" [.sentence "Assume the contrary." ["Assume", "the", "contrary", "."],
                         .sentence "Contradiction." ["Contradiction", "."]] none)
      false).current_goal
      = some (.Implies (.Predicate "contrary" []) (.Predicate "false" [])) ∧
    (process_statement (fun _ => none) 50 (fun _ => none) 10 (engineInit true false)
      (.theoremBlock "" [.sentence "Assume the contrary." ["Assume", "the", "contrary", "."],
                         .sentence "Contradiction." ["Contradiction", "."]] none)
      false).context = [] ∧
    some (Obj.Implies (.Predicate "contrary" []) (.Predicate "false" []))
      ≠ some (Obj.Predicate "false" []) := by
  refine ⟨rfl, rfl, ?_⟩
  intro hc
  injection hc with hc2
  exact Obj.noConfusion hc2

/-- C2 (amended): for every non-included theorem block whose sentences
yield at least one conclusion formula, block translation produces a
*single* formula — the universal closure of (conjunction of assumptions
→ conjunction of conclusions), or of the conclusion conjunction alone
when there are no assumption formulas — and the engine sets the working
goal to that single *closed* formula while adding no theorem-level
context entries (the earlier-formula context loop only fires for
all-assumption blocks). -/
theorem C2_theorem_handling (pm : String → Option Obj) (fuel : Nat)
    (resolve : String → Option (List Stmt)) (rf : Nat) (st : EngineState)
    (nm : String) (c : List Stmt) (author : Option String)
    (asms : List Obj) (cc : Obj) (cs : List Obj) (tr2 : Translator)
    (hsp : translate_block_split pm fuel st.translator c = (asms, cc :: cs, tr2)) :
    translate_statement pm fuel st.translator (.theoremBlock nm c author) =
      ([blockCombined asms cc cs], tr2) ∧
    (process_statement pm fuel resolve (rf + 1) st (.theoremBlock nm c author)
        false).current_goal = some (blockCombined asms cc cs) ∧
    (process_statement pm fuel resolve (rf + 1) st (.theoremBlock nm c author)
        false).context = st.context ∧
    get_free_vars (blockCombined asms cc cs) = [] := by
  have hts : translate_statement pm fuel st.translator (.theoremBlock nm c author) =
      ([blockCombined asms cc cs], tr2) := by
    show translate_block pm fuel st.translator c = _
    unfold translate_block blockCombined
    cases asms with
    | nil => rw [hsp]
    | cons a as => rw [hsp]
  refine ⟨hts, ?_, ?_, ?_⟩
  · simp only [process_statement, hts]
    rw [if_neg (by simp : ¬(false = true))]
    rfl
  · simp only [process_statement, hts]
    rw [if_neg (by simp : ¬(false = true))]
    rfl
  · unfold blockCombined
    cases asms with
    | nil => exact closure_closed _
    | cons a as => exact closure_closed _

/-- C2 witness: the amended statement at the counterexample's block. -/
theorem C2_theorem_handling_witness :
    (process_statement (fun _ => none) 50 (fun _ => none) 10 (engineInit true false)
      (.theoremBlock "" [.sentence "Assume the contrary." ["Assume", "the", "contrary", "."],
                         .sentence "Contradiction." ["Contradiction", "."]] none)
      false).context = (engineInit true false).context :=
  (C2_theorem_handling (fun _ => none) 50 (fun _ => none) 9 (engineInit true false)
    "" [.sentence "Assume the contrary." ["Assume", "the", "contrary", "."],
        .sentence "Contradiction." ["Contradiction", "."]] none
    [.Predicate "contrary" []] (.Predicate "false" []) [] ⟨[], []⟩ rfl).2.2.1



/-! ## Claim C10: assumption-only blocks -/

theorem addAxiomFormulas_snd : ∀ (fs : List Obj) (st : EngineState),
    (∀ f ∈ fs, isStandFor f = false) →
    (addAxiomFormulas st fs).axioms.map Prod.snd = st.axioms.map Prod.snd ++ fs
  | [], st, _ => by simp [addAxiomFormulas]
  | f :: fs, st, h => by
      have hstep : addAxiomFormulas st (f :: fs) =
          addAxiomFormulas (if isStandFor f then st
            else { st with axioms := st.axioms ++ [("ax_" ++ toString st.counter, f)],
                           counter := st.counter + 1 }) fs := by
        unfold addAxiomFormulas
        rw [List.foldl_cons]
      rw [hstep, if_neg (by simp [h f (List.mem_cons_self _ _)])]
      rw [addAxiomFormulas_snd fs _ (fun g hg => h g (List.mem_cons_of_mem _ hg))]
      simp

/-- C10: for every definition/axiom/lemma block in which every
translatable sentence is an assumption (so the conclusion list of the
split is empty), block translation returns one formula per assumption —
each assumption individually universally closured, no implication formed
— and the engine appends each one as a separate axiom (none of them
being a `stand_for` sentinel). -/
theorem C10_assumption_only_blocks (pm : String → Option Obj) (fuel : Nat)
    (resolve : String → Option (List Stmt)) (rf : Nat) (st : EngineState)
    (nm : String) (c : List Stmt) (asms : List Obj) (tr2 : Translator)
    (hsp : translate_block_split pm fuel st.translator c = (asms, [], tr2))
    (hnsf : ∀ f ∈ asms.map closure, isStandFor f = false) :
    translate_block pm fuel st.translator c = (asms.map closure, tr2) ∧
    (process_statement pm fuel resolve (rf + 1) st (.defnBlock nm c)
        false).axioms.map Prod.snd = st.axioms.map Prod.snd ++ asms.map closure ∧
    (process_statement pm fuel resolve (rf + 1) st (.axiomBlock nm c)
        false).axioms.map Prod.snd = st.axioms.map Prod.snd ++ asms.map closure ∧
    (process_statement pm fuel resolve (rf + 1) st (.lemmaBlock nm c)
        false).axioms.map Prod.snd = st.axioms.map Prod.snd ++ asms.map closure := by
  have htb : translate_block pm fuel st.translator c = (asms.map closure, tr2) := by
    unfold translate_block
    rw [hsp]
  have heng : ∀ stmt : Stmt,
      translate_statement pm fuel st.translator stmt = (asms.map closure, tr2) →
      (processDefAxLem pm fuel st stmt).axioms.map Prod.snd =
        st.axioms.map Prod.snd ++ asms.map closure := by
    intro stmt hts
    unfold processDefAxLem
    rw [hts]
    dsimp only
    rw [applyStandForMacros_axioms]
    exact addAxiomFormulas_snd _ _ hnsf
  refine ⟨htb, ?_, ?_, ?_⟩
  · simpa only [process_statement] using heng (.defnBlock nm c) htb
  · simpa only [process_statement] using heng (.axiomBlock nm c) htb
  · simpa only [process_statement] using heng (.lemmaBlock nm c) htb

/-- C10 witness: an axiom block with two `Let` assumption sentences; the
engine's axiom formulas after processing are the builtins followed by
the two individually-closured typing formulas. -/
theorem C10_assumption_only_blocks_witness :
    (process_statement
        (fun t => if t = "$X$" then some (.Variable "X")
          else if t = "$Y$" then some (.Variable "Y") else none) 50
        (fun _ => none) 10 (engineInit true false)
        (.axiomBlock "" [.sentence "Let $X$ be a set." ["Let", "$X$", "be", "a", "set", "."],
                         .sentence "Let $Y$ be a set." ["Let", "$Y$", "be", "a", "set", "."]])
        false).axioms.map Prod.snd
      = (engineInit true false).axioms.map Prod.snd ++
        [closure (.Predicate "set" [.Variable "X"]),
         closure (.Predicate "set" [.Variable "Y"])] :=
  (C10_assumption_only_blocks
    (fun t => if t = "$X$" then some (.Variable "X")
      else if t = "$Y$" then some (.Variable "Y") else none) 50
    (fun _ => none) 9 (engineInit true false) ""
    [.sentence "Let $X$ be a set." ["Let", "$X$", "be", "a", "set", "."],
     .sentence "Let $Y$ be a set." ["Let", "$Y$", "be", "a", "set", "."]]
    [.Predicate "set" [.Variable "X"], .Predicate "set" [.Variable "Y"]] ⟨[], []⟩
    rfl (by intro f hf; simp at hf; rcases hf with rfl | rfl <;> rfl)).2.2.1



/-! ## Claim C6: macro expansion order -/

/-- Does the stored phrase of a macro entry match (case-insensitively)
at the head of the atom list? -/
def macroMatchesAt (pr : String × Obj) (l : List String) : Bool :=
  let p_atoms := py_splitws pr.1
  decide (p_atoms.length ≠ 0 ∧ p_atoms.length ≤ l.length ∧
    (l.take p_atoms.length).map py_lower = p_atoms.map py_lower)

/-- Spec-side reading of the amended claim: at each position the FIRST
macro entry in table insertion order that matches is selected. -/
def firstHitSpec (macros : List (String × Obj)) (l : List String) :
    Option (Nat × String) :=
  ((macros.filter (fun pr => macroMatchesAt pr l)).head?).map
    (fun pr => ((py_splitws pr.1).length, macroRepString pr.2))

def expandFirstSpecAux (macros : List (String × Obj)) :
    Nat → List String → List String
  | 0, l => l
  | _ + 1, [] => []
  | fuel + 1, a :: rest =>
      match firstHitSpec macros (a :: rest) with
      | some (plen, rep) => rep :: expandFirstSpecAux macros fuel (rest.drop (plen - 1))
      | none => a :: expandFirstSpecAux macros fuel rest

def expandFirstMatchSpec (macros : List (String × Obj)) (l : List String) :
    List String :=
  expandFirstSpecAux macros (l.length + 1) l

/-- Spec-side reading of the original claim: at each position the
LONGEST matching stored phrase is selected (first among equals). -/
def longestHitSpec (macros : List (String × Obj)) (l : List String) :
    Option (Nat × String) :=
  ((macros.filter (fun pr => macroMatchesAt pr l)).foldl
      (fun best pr =>
        match best with
        | none => some pr
        | some b =>
            if (py_splitws pr.1).length > (py_splitws b.1).length then some pr
            else best) none).map
    (fun pr => ((py_splitws pr.1).length, macroRepString pr.2))

def expandLongestSpecAux (macros : List (String × Obj)) :
    Nat → List String → List String
  | 0, l => l
  | _ + 1, [] => []
  | fuel + 1, a :: rest =>
      match longestHitSpec macros (a :: rest) with
      | some (plen, rep) => rep :: expandLongestSpecAux macros fuel (rest.drop (plen - 1))
      | none => a :: expandLongestSpecAux macros fuel rest

def expandLongestSpec (macros : List (String × Obj)) (l : List String) :
    List String :=
  expandLongestSpecAux macros (l.length + 1) l

theorem macroFirstMatch_eq_firstHitSpec :
    ∀ (macros : List (String × Obj)) (l : List String),
      macroFirstMatch macros l = firstHitSpec macros l
  | [], _ => rfl
  | pr :: macros, l => by
      by_cases hP : ((py_splitws pr.1).length ≠ 0 ∧
          (py_splitws pr.1).length ≤ l.length ∧
          (l.take (py_splitws pr.1).length).map py_lower =
            (py_splitws pr.1).map py_lower)
      · simp only [macroFirstMatch, firstHitSpec, List.findSome?_cons,
          List.filter_cons, macroMatchesAt]
        rw [if_pos hP, decide_eq_true_eq.mpr hP]
        simp
      · simp only [macroFirstMatch, firstHitSpec, List.findSome?_cons,
          List.filter_cons, macroMatchesAt]
        rw [if_neg hP, decide_eq_false_iff_not.mpr hP]
        simp only [Bool.false_eq_true, if_false]
        exact macroFirstMatch_eq_firstHitSpec macros l

theorem expandScanAux_eq_spec (macros : List (String × Obj)) :
    ∀ (fuel : Nat) (l : List String),
      expandScanAux macros fuel l = expandFirstSpecAux macros fuel l
  | 0, _ => rfl
  | _ + 1, [] => rfl
  | fuel + 1, a :: rest => by
      simp only [expandScanAux, expandFirstSpecAux,
        macroFirstMatch_eq_firstHitSpec]
      cases firstHitSpec macros (a :: rest) with
      | none => exact congrArg (a :: ·) (expandScanAux_eq_spec macros fuel rest)
      | some pr =>
          cases pr with
          | mk plen rep =>
              exact congrArg (rep :: ·) (expandScanAux_eq_spec macros fuel _)

theorem expandScanAux_nil : ∀ (fuel : Nat) (l : List String),
    l.length ≤ fuel → expandScanAux [] fuel l = l
  | 0, [], _ => rfl
  | 0, _ :: _, h => absurd h (by simp)
  | _ + 1, [], _ => rfl
  | fuel + 1, a :: rest, h => by
      simp only [expandScanAux, macroFirstMatch, List.findSome?_nil]
      exact congrArg (a :: ·)
        (expandScanAux_nil fuel rest (Nat.le_of_succ_le_succ h))

theorem expandMacroScan_nil (l : List String) : expandMacroScan [] l = l :=
  expandScanAux_nil (l.length + 1) l (Nat.le_succ _)

/-- C6 counterexample: with the macro table holding `the ↦ T` before
`the board ↦ B`, the scan on `The board is big` replaces the one-word
phrase `the` (first in insertion order), not the longer phrase
`the board`, so it differs from the greedy longest-match scan the claim
describes. -/
theorem C6_counterexample :
    expandMacroScan [("the", .Variable "T"), ("the board", .Variable "B")]
        ["The", "board", "is", "big"] = ["$T$", "board", "is", "big"] ∧
    expandLongestSpec [("the", .Variable "T"), ("the board", .Variable "B")]
        ["The", "board", "is", "big"] = ["$B$", "is", "big"] ∧
    expandMacroScan [("the", .Variable "T"), ("the board", .Variable "B")]
        ["The", "board", "is", "big"] ≠
      expandLongestSpec [("the", .Variable "T"), ("the board", .Variable "B")]
        ["The", "board", "is", "big"] := by
  refine ⟨by decide, by decide, by decide⟩

/-- C6 (amended): when a sentence is not itself a macro capture, its
translation factors through the macro scan — it equals the pattern
cascade applied to the cleaned, macro-expanded atoms — the scan replaces
at each position the FIRST stored phrase (in macro-table insertion
order) that matches there, and any two sentences whose atom sequences
expand to the same list translate identically. -/
theorem C6_macro_expansion (pm : String → Option Obj) (fuel : Nat)
    (tr : Translator) (text text2 : String) (atoms atoms2 : List String)
    (asAxiom : Bool)
    (hcap : macroCapture pm tr atoms = none)
    (hcap2 : macroCapture pm tr atoms2 = none)
    (hexp : expandMacroScan tr.macros atoms = expandMacroScan tr.macros atoms2) :
    translate_sentence pm (fuel + 1) tr text atoms asAxiom =
      tsClean pm fuel tr (cleanAtoms (expandMacroScan tr.macros atoms)) asAxiom ∧
    expandMacroScan tr.macros atoms = expandFirstMatchSpec tr.macros atoms ∧
    translate_sentence pm (fuel + 1) tr text atoms asAxiom =
      translate_sentence pm (fuel + 1) tr text2 atoms2 asAxiom := by
  have hfac : ∀ (t : String) (l : List String),
      macroCapture pm tr l = none →
      translate_sentence pm (fuel + 1) tr t l asAxiom =
        tsClean pm fuel tr (cleanAtoms (expandMacroScan tr.macros l)) asAxiom := by
    intro t l hc
    simp only [translate_sentence]
    rw [hc]
    by_cases hm : tr.macros.isEmpty
    · rw [if_pos hm]
      rw [List.isEmpty_iff.mp hm, expandMacroScan_nil]
    · rw [if_neg hm]
  refine ⟨hfac text atoms hcap, expandScanAux_eq_spec tr.macros _ atoms, ?_⟩
  rw [hfac text atoms hcap, hfac text2 atoms2 hcap2, hexp]

/-- C6 witness: with the table `the board ↦ B`, the sentence
`The board is big .` expands first-match to `$B$ is big .` and
translates exactly as the sentence `$B$ is big .` itself. -/
theorem C6_macro_expansion_witness :
    expandMacroScan [("the board", .Variable "B")]
        ["The", "board", "is", "big", "."] =
      expandFirstMatchSpec [("the board", .Variable "B")]
        ["The", "board", "is", "big", "."] ∧
    translate_sentence (fun _ => none) 20
        ⟨[("the board", .Variable "B")], []⟩ "The board is big ."
        ["The", "board", "is", "big", "."] false =
      translate_sentence (fun _ => none) 20
        ⟨[("the board", .Variable "B")], []⟩ "$B$ is big ."
        ["$B$", "is", "big", "."] false :=
  let h := C6_macro_expansion (fun _ => none) 19
    ⟨[("the board", .Variable "B")], []⟩ "The board is big ." "$B$ is big ."
    ["The", "board", "is", "big", "."] ["$B$", "is", "big", "."] false
    rfl rfl (by decide)
  ⟨h.2.1, h.2.2⟩



/-! ## Claim C7: case-split scoping -/

/-- A `Case` step (not `Case End`) pushes a copy of the proof context
onto the scope stack and appends the case assumption. -/
theorem cps_case_push (pm : String → Option Obj) (fuel : Nat)
    (ax ctx : List (String × Obj)) (pr : String) (uc bm : Bool)
    (foc : Option Obj) (S : PLoopState) (i : Nat) (text : String)
    (atoms : List String) (f : Obj) (tr1 : Translator)
    (ht : translate_sentence pm fuel S.translator text atoms false = (some f, tr1))
    (hhd : atoms.headD "" = "Case") (h2 : atoms.getD 1 "" ≠ "End") :
    checkProofStep pm fuel ax ctx pr uc bm foc S i (.sentence text atoms) =
      { S with translator := tr1,
               scope_stack := S.scope_stack ++ [S.proof_context],
               proof_context := S.proof_context ++ [("step_" ++ toString i, f)] } := by
  have hcond : ¬(¬(atoms.isEmpty = true) ∧ (atoms.headD "" = "End" ∨
      (atoms.length > 1 ∧ atoms.headD "" = "Case" ∧ atoms.getD 1 "" = "End"))) := by
    rintro ⟨-, h | ⟨-, -, hE⟩⟩
    · rw [hhd] at h
      exact absurd h (by decide)
    · exact h2 hE
  simp only [checkProofStep]
  rw [ht]
  rw [if_neg hcond]
  dsimp only
  rw [if_pos hhd]

/-- An `End` step pops the scope stack back to the saved context. -/
theorem cps_end_pop (pm : String → Option Obj) (fuel : Nat)
    (ax ctx : List (String × Obj)) (pr : String) (uc bm : Bool)
    (foc : Option Obj) (S : PLoopState) (i : Nat) (text : String)
    (atoms : List String) (top : List (String × Obj)) (tr1 : Translator)
    (ht : (translate_sentence pm fuel S.translator text atoms false).2 = tr1)
    (hhd : atoms.headD "" = "End") (hnil : atoms ≠ [])
    (hlast : S.scope_stack.getLast? = some top) :
    checkProofStep pm fuel ax ctx pr uc bm foc S i (.sentence text atoms) =
      { S with translator := tr1, proof_context := top,
               scope_stack := S.scope_stack.dropLast } := by
  have hne : ¬(atoms.isEmpty = true) := fun h => hnil (List.isEmpty_iff.mp h)
  simp only [checkProofStep]
  rw [ht]
  rw [if_pos ⟨hne, Or.inl hhd⟩]
  rw [hlast]

/-- A plain obligation step (translates, no `Case`/`End` prefix, not an
assumption, not `contrary`/`false`): the proof context at that moment is
captured in the submitted task, and the step is appended afterwards. -/
theorem cps_obligation (pm : String → Option Obj) (fuel : Nat)
    (ax ctx : List (String × Obj)) (pr : String) (uc bm : Bool)
    (foc : Option Obj) (S : PLoopState) (i : Nat) (text : String)
    (atoms : List String) (f : Obj) (tr1 : Translator)
    (ht : translate_sentence pm fuel S.translator text atoms false = (some f, tr1))
    (hhdE : atoms.headD "" ≠ "End") (hhdC : atoms.headD "" ≠ "Case")
    (hassm : assumptionWords.any (fun w => py_startswith (py_strip text) w) = false)
    (hc : isPredNamed "contrary" f = false)
    (hf : isPredNamed "false" f = false) :
    checkProofStep pm fuel ax ctx pr uc bm foc S i (.sentence text atoms) =
      { S with translator := tr1,
               tasks := S.tasks ++
                 [⟨ax, ctx, S.proof_context, f, pr, uc, bm, S.timelimit, i + 1,
                   "Verification of " ++ py_str f⟩],
               proof_context := S.proof_context ++ [("step_" ++ toString i, f)] } := by
  have hcond : ¬(¬(atoms.isEmpty = true) ∧ (atoms.headD "" = "End" ∨
      (atoms.length > 1 ∧ atoms.headD "" = "Case" ∧ atoms.getD 1 "" = "End"))) := by
    rintro ⟨-, h | ⟨-, hC, -⟩⟩
    · exact hhdE h
    · exact hhdC hC
  simp only [checkProofStep]
  rw [ht]
  rw [if_neg hcond]
  dsimp only
  rw [if_neg hhdC, hc, hf, hassm]
  rw [if_neg (by simp : ¬(false = true)), if_neg (by simp : ¬(false = true)),
    if_neg (by simp : ¬(false = true))]



/-- C7: within a proof block, a `Case` sentence pushes a copy of the
current proof context onto the scope stack and appends the case
assumption, and `End` pops the stack back to the saved context; in a
body of the form `Case P. O1. End. Case Q. O2. End.` the obligation
inside case 1 captures exactly the context extended by `P`, the
obligation inside case 2 captures exactly the context extended by `Q`,
and neither the case-1 assumption nor the case-1 step appears in the
proof context of the case-2 obligation. -/
theorem C7_case_scoping (pm : String → Option Obj) (fuel : Nat)
    (st : EngineState) (hcg : st.current_goal = none)
    (mP mQ tCP tCQ tO1 tO2 tE1 tE2 : String) (aO1 aO2 aE1 aE2 : List String)
    (P Q F1 F2 : Obj)
    (hP : translate_sentence pm fuel st.translator tCP ["Case", mP, "."] false =
      (some P, st.translator))
    (hmP : mP ≠ "End")
    (hQ : translate_sentence pm fuel st.translator tCQ ["Case", mQ, "."] false =
      (some Q, st.translator))
    (hmQ : mQ ≠ "End")
    (hO1 : translate_sentence pm fuel st.translator tO1 aO1 false =
      (some F1, st.translator))
    (hO1E : aO1.headD "" ≠ "End") (hO1C : aO1.headD "" ≠ "Case")
    (hassm1 : assumptionWords.any (fun w => py_startswith (py_strip tO1) w) = false)
    (hc1 : isPredNamed "contrary" F1 = false)
    (hf1 : isPredNamed "false" F1 = false)
    (hO2 : translate_sentence pm fuel st.translator tO2 aO2 false =
      (some F2, st.translator))
    (hO2E : aO2.headD "" ≠ "End") (hO2C : aO2.headD "" ≠ "Case")
    (hassm2 : assumptionWords.any (fun w => py_startswith (py_strip tO2) w) = false)
    (hc2 : isPredNamed "contrary" F2 = false)
    (hf2 : isPredNamed "false" F2 = false)
    (hE1 : (translate_sentence pm fuel st.translator tE1 aE1 false).2 = st.translator)
    (hE1h : aE1.headD "" = "End") (hE1n : aE1 ≠ [])
    (hE2 : (translate_sentence pm fuel st.translator tE2 aE2 false).2 = st.translator)
    (hE2h : aE2.headD "" = "End") (hE2n : aE2 ≠ []) :
    (∀ (ax ctx : List (String × Obj)) (pr : String) (uc bm : Bool)
        (foc : Option Obj) (S : PLoopState) (i : Nat) (text : String)
        (atoms : List String) (f : Obj) (tr1 : Translator),
      translate_sentence pm fuel S.translator text atoms false = (some f, tr1) →
      atoms.headD "" = "Case" → atoms.getD 1 "" ≠ "End" →
      checkProofStep pm fuel ax ctx pr uc bm foc S i (.sentence text atoms) =
        { S with translator := tr1,
                 scope_stack := S.scope_stack ++ [S.proof_context],
                 proof_context := S.proof_context ++
                   [("step_" ++ toString i, f)] }) ∧
    (∀ (ax ctx : List (String × Obj)) (pr : String) (uc bm : Bool)
        (foc : Option Obj) (S : PLoopState) (i : Nat) (text : String)
        (atoms : List String) (top : List (String × Obj)) (tr1 : Translator),
      (translate_sentence pm fuel S.translator text atoms false).2 = tr1 →
      atoms.headD "" = "End" → atoms ≠ [] →
      S.scope_stack.getLast? = some top →
      checkProofStep pm fuel ax ctx pr uc bm foc S i (.sentence text atoms) =
        { S with translator := tr1, proof_context := top,
                 scope_stack := S.scope_stack.dropLast }) ∧
    ((check_proof pm fuel st
        [.sentence tCP ["Case", mP, "."], .sentence tO1 aO1,
         .sentence tE1 aE1, .sentence tCQ ["Case", mQ, "."],
         .sentence tO2 aO2, .sentence tE2 aE2]).2).map
      (fun t => (t.proof_context, t.goal)) =
      [([("step_0", P)], F1), ([("step_3", Q)], F2)] ∧
    (∀ t ∈ ((check_proof pm fuel st
        [.sentence tCP ["Case", mP, "."], .sentence tO1 aO1,
         .sentence tE1 aE1, .sentence tCQ ["Case", mQ, "."],
         .sentence tO2 aO2, .sentence tE2 aE2]).2).drop 1,
      ("step_0", P) ∉ t.proof_context ∧ ("step_1", F1) ∉ t.proof_context) := by
  have hrun : (check_proof pm fuel st
      [.sentence tCP ["Case", mP, "."], .sentence tO1 aO1,
       .sentence tE1 aE1, .sentence tCQ ["Case", mQ, "."],
       .sentence tO2 aO2, .sentence tE2 aE2]).2 =
      [⟨st.axioms, st.context, [("step_0", P)], F1, st.active_prover,
        st.current_cache_enabled, st.benchmark_mode, st.timelimit, 2,
        "Verification of " ++ py_str F1⟩,
       ⟨st.axioms, st.context, [("step_3", Q)], F2, st.active_prover,
        st.current_cache_enabled, st.benchmark_mode, st.timelimit, 5,
        "Verification of " ++ py_str F2⟩] := by
    have e0 : checkProofStep pm fuel st.axioms st.context st.active_prover
        st.current_cache_enabled st.benchmark_mode none
        ⟨st.translator, [], [], [], st.timelimit⟩ 0
        (.sentence tCP ["Case", mP, "."]) =
        (⟨st.translator, [("step_0", P)], [[]], [], st.timelimit⟩ : PLoopState) :=
      cps_case_push pm fuel _ _ _ _ _ _ _ _ _ _ _ _ hP rfl hmP
    have e1 : checkProofStep pm fuel st.axioms st.context st.active_prover
        st.current_cache_enabled st.benchmark_mode none
        (⟨st.translator, [("step_0", P)], [[]], [], st.timelimit⟩ : PLoopState) 1
        (.sentence tO1 aO1) =
        (⟨st.translator, [("step_0", P), ("step_1", F1)], [[]],
          [⟨st.axioms, st.context, [("step_0", P)], F1, st.active_prover,
            st.current_cache_enabled, st.benchmark_mode, st.timelimit, 2,
            "Verification of " ++ py_str F1⟩], st.timelimit⟩ : PLoopState) :=
      cps_obligation pm fuel _ _ _ _ _ _ _ _ _ _ _ _ hO1 hO1E hO1C hassm1 hc1 hf1
    have e2 : checkProofStep pm fuel st.axioms st.context st.active_prover
        st.current_cache_enabled st.benchmark_mode none
        (⟨st.translator, [("step_0", P), ("step_1", F1)], [[]],
          [⟨st.axioms, st.context, [("step_0", P)], F1, st.active_prover,
            st.current_cache_enabled, st.benchmark_mode, st.timelimit, 2,
            "Verification of " ++ py_str F1⟩], st.timelimit⟩ : PLoopState) 2
        (.sentence tE1 aE1) =
        (⟨st.translator, [], [],
          [⟨st.axioms, st.context, [("step_0", P)], F1, st.active_prover,
            st.current_cache_enabled, st.benchmark_mode, st.timelimit, 2,
            "Verification of " ++ py_str F1⟩], st.timelimit⟩ : PLoopState) :=
      cps_end_pop pm fuel _ _ _ _ _ _ _ _ _ _ _ _ hE1 hE1h hE1n rfl
    have e3 : checkProofStep pm fuel st.axioms st.context st.active_prover
        st.current_cache_enabled st.benchmark_mode none
        (⟨st.translator, [], [],
          [⟨st.axioms, st.context, [("step_0", P)], F1, st.active_prover,
            st.current_cache_enabled, st.benchmark_mode, st.timelimit, 2,
            "Verification of " ++ py_str F1⟩], st.timelimit⟩ : PLoopState) 3
        (.sentence tCQ ["Case", mQ, "."]) =
        (⟨st.translator, [("step_3", Q)], [[]],
          [⟨st.axioms, st.context, [("step_0", P)], F1, st.active_prover,
            st.current_cache_enabled, st.benchmark_mode, st.timelimit, 2,
            "Verification of " ++ py_str F1⟩], st.timelimit⟩ : PLoopState) :=
      cps_case_push pm fuel _ _ _ _ _ _ _ _ _ _ _ _ hQ rfl hmQ
    have e4 : checkProofStep pm fuel st.axioms st.context st.active_prover
        st.current_cache_enabled st.benchmark_mode none
        (⟨st.translator, [("step_3", Q)], [[]],
          [⟨st.axioms, st.context, [("step_0", P)], F1, st.active_prover,
            st.current_cache_enabled, st.benchmark_mode, st.timelimit, 2,
            "Verification of " ++ py_str F1⟩], st.timelimit⟩ : PLoopState) 4
        (.sentence tO2 aO2) =
        (⟨st.translator, [("step_3", Q), ("step_4", F2)], [[]],
          [⟨st.axioms, st.context, [("step_0", P)], F1, st.active_prover,
            st.current_cache_enabled, st.benchmark_mode, st.timelimit, 2,
            "Verification of " ++ py_str F1⟩,
           ⟨st.axioms, st.context, [("step_3", Q)], F2, st.active_prover,
            st.current_cache_enabled, st.benchmark_mode, st.timelimit, 5,
            "Verification of " ++ py_str F2⟩], st.timelimit⟩ : PLoopState) :=
      cps_obligation pm fuel _ _ _ _ _ _ _ _ _ _ _ _ hO2 hO2E hO2C hassm2 hc2 hf2
    have e5 : checkProofStep pm fuel st.axioms st.context st.active_prover
        st.current_cache_enabled st.benchmark_mode none
        (⟨st.translator, [("step_3", Q), ("step_4", F2)], [[]],
          [⟨st.axioms, st.context, [("step_0", P)], F1, st.active_prover,
            st.current_cache_enabled, st.benchmark_mode, st.timelimit, 2,
            "Verification of " ++ py_str F1⟩,
           ⟨st.axioms, st.context, [("step_3", Q)], F2, st.active_prover,
            st.current_cache_enabled, st.benchmark_mode, st.timelimit, 5,
            "Verification of " ++ py_str F2⟩], st.timelimit⟩ : PLoopState) 5
        (.sentence tE2 aE2) =
        (⟨st.translator, [], [],
          [⟨st.axioms, st.context, [("step_0", P)], F1, st.active_prover,
            st.current_cache_enabled, st.benchmark_mode, st.timelimit, 2,
            "Verification of " ++ py_str F1⟩,
           ⟨st.axioms, st.context, [("step_3", Q)], F2, st.active_prover,
            st.current_cache_enabled, st.benchmark_mode, st.timelimit, 5,
            "Verification of " ++ py_str F2⟩], st.timelimit⟩ : PLoopState) :=
      cps_end_pop pm fuel _ _ _ _ _ _ _ _ _ _ _ _ hE2 hE2h hE2n rfl
    simp only [check_proof]
    rw [hcg]
    dsimp only
    rw [show (([.sentence tCP ["Case", mP, "."], .sentence tO1 aO1,
        .sentence tE1 aE1, .sentence tCQ ["Case", mQ, "."],
        .sentence tO2 aO2, .sentence tE2 aE2] : List Stmt)).enum =
      [(0, .sentence tCP ["Case", mP, "."]), (1, .sentence tO1 aO1),
       (2, .sentence tE1 aE1), (3, .sentence tCQ ["Case", mQ, "."]),
       (4, .sentence tO2 aO2), (5, .sentence tE2 aE2)] from rfl]
    simp only [List.foldl_cons, List.foldl_nil]
    rw [e0, e1, e2, e3, e4, e5]
  refine ⟨?_, ?_, ?_, ?_⟩
  · intro ax ctx pr uc bm foc S i text atoms f tr1 ht hhd h2
    exact cps_case_push pm fuel ax ctx pr uc bm foc S i text atoms f tr1 ht hhd h2
  · intro ax ctx pr uc bm foc S i text atoms top tr1 ht hhd hnil hlast
    exact cps_end_pop pm fuel ax ctx pr uc bm foc S i text atoms top tr1 ht hhd hnil hlast
  · rw [hrun]
    rfl
  · rw [hrun]
    intro t htm
    simp only [List.drop, List.mem_singleton] at htm
    subst htm
    refine ⟨?_, ?_⟩
    · intro hmem
      simp only [List.mem_singleton, Prod.mk.injEq] at hmem
      exact absurd hmem.1 (by decide)
    · intro hmem
      simp only [List.mem_singleton, Prod.mk.injEq] at hmem
      exact absurd hmem.1 (by decide)



/-- C7 witness: the body `Case $P$. $R$. End. Case $Q$. $S$. End.` on a
fresh engine yields exactly two obligations, the first capturing context
`[step_0 ↦ p]` with goal `r`, the second `[step_3 ↦ q]` with goal `s`. -/
theorem C7_case_scoping_witness :
    ((check_proof
        (fun t => if t = "$P$" then some (.Predicate "p" [])
          else if t = "$Q$" then some (.Predicate "q" [])
          else if t = "$R$" then some (.Predicate "r" [])
          else if t = "$S$" then some (.Predicate "s" []) else none) 30
        (engineInit true false)
        [.sentence "Case $P$ ." ["Case", "$P$", "."],
         .sentence "$R$ ." ["$R$", "."],
         .sentence "End ." ["End", "."],
         .sentence "Case $Q$ ." ["Case", "$Q$", "."],
         .sentence "$S$ ." ["$S$", "."],
         .sentence "End ." ["End", "."]]).2).map
      (fun t => (t.proof_context, t.goal)) =
      [([("step_0", Obj.Predicate "p" [])], Obj.Predicate "r" []),
       ([("step_3", Obj.Predicate "q" [])], Obj.Predicate "s" [])] :=
  (C7_case_scoping
    (fun t => if t = "$P$" then some (.Predicate "p" [])
      else if t = "$Q$" then some (.Predicate "q" [])
      else if t = "$R$" then some (.Predicate "r" [])
      else if t = "$S$" then some (.Predicate "s" []) else none) 30
    (engineInit true false) rfl
    "$P$" "$Q$" "Case $P$ ." "Case $Q$ ." "$R$ ." "$S$ ." "End ." "End ."
    ["$R$", "."] ["$S$", "."] ["End", "."] ["End", "."]
    (.Predicate "p" []) (.Predicate "q" []) (.Predicate "r" []) (.Predicate "s" [])
    rfl (by decide) rfl (by decide)
    rfl (by decide) (by decide) (by decide) rfl rfl
    rfl (by decide) (by decide) (by decide) rfl rfl
    rfl (by decide) (by decide)
    rfl (by decide) (by decide)).2.2.1



/-! ## Claim C9: per-obligation time budget -/

/-- C9 counterexample: in benchmark mode with a configured budget of 7
seconds, `verify_task` invokes every registered prover with a fixed
timeout of 1.0 second, not the configured budget. -/
theorem C9_counterexample :
    (verify_task (fun s => s) (fun _ _ _ _ => ⟨false, none, ""⟩) [] [] []
        (.Predicate "g" []) "vampire" false true (some allProverNames)
        (some 7) []).2.2
      = [("eprover", 1), ("vampire", 1), ("dummy", 1)] ∧
    ((verify_task (fun s => s) (fun _ _ _ _ => ⟨false, none, ""⟩) [] [] []
        (.Predicate "g" []) "vampire" false true (some allProverNames)
        (some 7) []).2.2).all (fun c => c.2 = 7) = false := by
  exact ⟨rfl, rfl⟩

/-- C9 (amended): the `timelimit` directive (at top level and inside a
proof) sets the engine's per-obligation budget; in standard mode every
prover invocation of `verify_task` uses the configured budget when it is
nonzero, and falls back to 5.0 seconds when the budget is zero or unset;
in benchmark mode the configured budget is ignored and every registered
prover is invoked with a fixed timeout of 1.0 second. -/
theorem C9_time_budget (pm : String → Option Obj) (fuel : Nat)
    (hashF : String → String)
    (prove : String → List (String × Obj) → String × Obj → ℚ → ProverResult)
    (axs ctx pctx : List (String × Obj)) (goal : Obj) (pname : String)
    (uc : Bool) (mgr : Option (List String)) (names : List String)
    (ov : Option ℚ) (store : List CacheRec) (st : EngineState)
    (S : PLoopState) (i : Nat) (a : String) (v t : ℚ)
    (hv : parsePyFloat a = some v) (ht0 : t ≠ 0) :
    processDirective st "timelimit" [a] = { st with timelimit := v } ∧
    (∀ (ax2 ctx2 : List (String × Obj)) (pr2 : String) (uc2 bm2 : Bool)
        (foc2 : Option Obj),
      checkProofStep pm fuel ax2 ctx2 pr2 uc2 bm2 foc2 S i
        (.directive "timelimit" [a]) = { S with timelimit := v }) ∧
    (∀ c ∈ (verify_task hashF prove axs ctx pctx goal pname uc false mgr
        (some t) store).2.2, c = (pname, t)) ∧
    (∀ c ∈ (verify_task hashF prove axs ctx pctx goal pname uc false mgr
        (some 0) store).2.2, c = (pname, 5)) ∧
    (∀ c ∈ (verify_task hashF prove axs ctx pctx goal pname uc false mgr
        none store).2.2, c = (pname, 5)) ∧
    (verify_task hashF prove axs ctx pctx goal pname uc true (some names)
        ov store).2.2 = names.map (fun p => (p, (1 : ℚ))) := by
  refine ⟨?_, ?_, ?_, ?_, ?_, ?_⟩
  · unfold processDirective
    rw [if_neg (by rintro ⟨h, -⟩; exact absurd h (by decide)),
      if_neg (by rintro ⟨h, -⟩; exact absurd h (by decide)),
      if_pos ⟨rfl, by simp⟩]
    rw [show ([a] : List String).headD "" = a from rfl, hv]
  · intro ax2 ctx2 pr2 uc2 bm2 foc2
    simp only [checkProofStep]
    rw [if_pos trivial]
    rw [hv]
  · intro c hc
    simp only [verify_task] at hc
    revert hc
    split
    · intro hc
      simp at hc
    · intro hc
      rw [if_neg (by rintro ⟨h, -⟩; exact absurd h (by decide))] at hc
      dsimp only at hc
      rw [if_neg ht0] at hc
      rw [List.mem_singleton] at hc
      exact hc
  · intro c hc
    simp only [verify_task] at hc
    revert hc
    split
    · intro hc
      simp at hc
    · intro hc
      rw [if_neg (by rintro ⟨h, -⟩; exact absurd h (by decide))] at hc
      dsimp only at hc
      rw [if_pos trivial] at hc
      rw [List.mem_singleton] at hc
      exact hc
  · intro c hc
    simp only [verify_task] at hc
    revert hc
    split
    · intro hc
      simp at hc
    · intro hc
      rw [if_neg (by rintro ⟨h, -⟩; exact absurd h (by decide))] at hc
      dsimp only at hc
      rw [List.mem_singleton] at hc
      exact hc
  · simp only [verify_task]
    rw [if_neg (by rintro ⟨-, h⟩; exact h trivial)]
    dsimp only
    rw [if_pos ⟨trivial, rfl⟩]
    rfl

/-- C9 witness: `timelimit 7` sets the engine budget to 7, and a
benchmark-mode `verify_task` with that budget still calls the three
registered provers with timeout 1.0 each. -/
theorem C9_time_budget_witness :
    processDirective (engineInit true false) "timelimit" ["7"] =
      { engineInit true false with timelimit := 7 } ∧
    (verify_task (fun s => s) (fun _ _ _ _ => ⟨false, none, ""⟩) [] [] []
        (.Predicate "g" []) "vampire" true true (some allProverNames)
        (some 7) []).2.2
      = allProverNames.map (fun p => (p, (1 : ℚ))) :=
  let h := C9_time_budget (fun _ => none) 0 (fun s => s)
    (fun _ _ _ _ => ⟨false, none, ""⟩) [] [] [] (.Predicate "g" []) "vampire"
    true (some allProverNames) allProverNames (some 7) []
    (engineInit true false) ⟨⟨[], []⟩, [], [], [], 5⟩ 0 "7" 7 7
    (by rw [show parsePyFloat "7" = some (1 * ((7 : ℕ) : ℚ)) from rfl]; norm_num)
    (by decide)
  ⟨h.1, h.2.2.2.2.2⟩


end Naproche
